import Mathlib

/-!
Verification development for the bubbletea-v2 layer-composition analysis engine.

The definitions below are a shallow embedding of the JavaScript source:
  * `src/model/composition.js`  (getBubbleDataWithContext, dominatingLayersWithContext,
    layerCompositionComparatorWithContext, getBubbleTeaDataWithContext)
  * `src/ui/tooltip.js`         (buildContext layer construction, bfsSort)
  * `src/render/servingTable.js` (the bucketing portion of drawServingTableWithContext)
  * `src/utils/utils.js`, `src/graph/graph.js` and the node helpers
    (classesOf, methodsOf, layerOf).

Modelling conventions: JS numbers are rationals (ℚ) — every arithmetic
operation performed by this code on realistic data is exact in doubles;
JS object references are represented by node ids (node objects are canonical
per id in the graph's `_meta._nodes` map); the JS `null` entry of the layer
array is `Option.none`; a thrown error is `Option.none` in the result.
-/

namespace BubbleTea

/-- A `{layer, count}` composition entry (the shape consumed by
`dominatingLayersWithContext` and produced by the package aggregator). -/
structure Entry where
  layer : String
  count : ℚ
deriving DecidableEq, Repr

/-- A full per-class bubble-data entry `{layer, count, valid, hue}` as built by
`getBubbleDataWithContext` in `src/model/composition.js`. -/
structure BEntry where
  layer : String
  count : ℚ
  valid : Bool
  hue : Int
deriving DecidableEq, Repr

/-- The index of the first element strictly equal to `some x`, if any. -/
def jsIndexOf? : List (Option String) → String → Option Nat
  | [], _ => none
  | o :: rest, x => if o == some x then some 0 else (jsIndexOf? rest x).map (· + 1)

/-- JS `Array.prototype.indexOf` on the context's layer array (which may hold a
`null` sentinel): first index whose element strictly equals the string `x`
(so a `null` entry never matches), `-1` when absent. -/
def jsIndexOf (layers : List (Option String)) (x : String) : Int :=
  match jsIndexOf? layers x with
  | some i => (i : Int)
  | none => -1

/-- JS `Array.prototype.includes` of a string in the layer array. -/
def includesStr (layers : List (Option String)) (x : String) : Bool :=
  layers.any (fun o => o == some x)

/-- `arraysEqual` from `src/utils/utils.js`:
`(a) => (b) => a.length === b.length && a.every((val, i) => val === b[i])`. -/
def arraysEqual (a b : List String) : Bool :=
  a.length == b.length && (a.zip b).all (fun p => p.1 == p.2)

/-- `sum` from `src/utils/utils.js`: `arr.reduce((acc, val) => acc + val, 0)`. -/
def sumQ (l : List ℚ) : ℚ :=
  l.foldl (· + ·) 0

/-- The running top value of the `max1`/`layer1` (resp. `max2`/`layer2`) pair in
the scan of `dominatingLayersWithContext`; `none` is the initial
`-Infinity` / `null` state. -/
abbrev Top := Option (ℚ × String)

/-- `count > max1` (resp. `max2`) where the right side may be `-Infinity`. -/
def ltTop (c : ℚ) : Top → Prop
  | none => True
  | some (m, _) => m < c

instance (c : ℚ) : (t : Top) → Decidable (ltTop c t)
  | none => .isTrue trivial
  | some (m, _) => inferInstanceAs (Decidable (m < c))

/-- One iteration of the top-2 scan in `dominatingLayersWithContext`
(`src/model/composition.js` lines 75–85). -/
def topStep (s : Top × Top) (e : Entry) : Top × Top :=
  if ltTop e.count s.1 then (some (e.count, e.layer), s.1)
  else if ltTop e.count s.2 then (s.1, some (e.count, e.layer))
  else s

/-- `dominatingLayersWithContext(context)(bubbleData)` from
`src/model/composition.js` lines 67–105. The `(none, _)` arm of the match is
unreachable for non-empty input (the fold then always installs a first
maximum); the empty input is caught by the initial length guard as in the
source. -/
def dominatingLayers (layers : List (Option String)) (bubbleData : List Entry) :
    List String :=
  if bubbleData.length < 1 then []
  else
    match bubbleData.foldl topStep (none, none) with
    | (none, _) => []
    | (some (_, l1), none) => [l1]
    | (some (m1, l1), some (m2, l2)) =>
      if 3/2 * m2 < m1 then [l1]
      else if (bubbleData.length = 2 ∨ ∃ e ∈ bubbleData, e.count * (3/2) < m1)
              ∧ (jsIndexOf layers l1 - jsIndexOf layers l2).natAbs < 2 then
        [l1, l2]
      else []

/-- `calculateDominanceScore` from `src/model/composition.js` lines 120–127. -/
def calculateDominanceScore (layers : List (Option String))
    (dominantLayers : List String) : ℚ :=
  match dominantLayers with
  | [] => 100
  | [l] => (jsIndexOf layers l : ℚ)
  | l1 :: l2 :: _ => ((jsIndexOf layers l1 : ℚ) + (jsIndexOf layers l2 : ℚ)) / 2

/-- `calculateProportion` from `src/model/composition.js` lines 130–136.
JS division by a zero total yields `NaN`; in ℚ it yields `0` — every vector
this program builds has positive total, see `claim8_class_vector_invariants`. -/
def calculateProportion (arr : List Entry) (dominantLayers : List String) : ℚ :=
  let total := sumQ (arr.map (·.count))
  let dominantCount :=
    sumQ ((arr.filter (fun e => dominantLayers.contains e.layer)).map (·.count))
  dominantCount / total

/-- `layerCompositionComparatorWithContext(context)` from
`src/model/composition.js` lines 138–153. -/
def layerCompositionComparator (layers : List (Option String))
    (aBubbleData bBubbleData : List Entry) : ℚ :=
  let da := dominatingLayers layers aBubbleData
  let db := dominatingLayers layers bBubbleData
  if arraysEqual da db then
    calculateProportion bBubbleData db - calculateProportion aBubbleData da
  else
    calculateDominanceScore layers da - calculateDominanceScore layers db

/-! ## Graph model (`src/graph/graph.js` and the node helpers) -/

/-- A JS property value: a string, or a reference to another node.  The
`property("package", pkg)` write of the aggregator stores a node reference;
references are modelled by the referenced node's id (node objects are
canonical per id in the graph's node map). -/
inductive PVal where
  | s (v : String)
  | ref (id : String)
deriving DecidableEq, Repr

/-- A graph node: `data.id`, `data.labels`, `data.properties` (the property
record is an insertion-ordered key/value list, as a JS object is). -/
structure MNode where
  id : String
  labels : List String
  props : List (String × PVal)
deriving DecidableEq, Repr

/-- A graph edge record: `data.label`, `data.source`, `data.target`. -/
structure MEdge where
  label : String
  src : String
  tgt : String
deriving DecidableEq, Repr

/-- The graph: `elements.nodes` and `elements.edges`. -/
structure MGraph where
  nodes : List MNode
  edges : List MEdge
deriving DecidableEq, Repr

/-- JS object-property read `obj[k]`: the value at the first matching key,
or `undefined` (`none`). -/
def getAssoc {β : Type} : List (String × β) → String → Option β
  | [], _ => none
  | p :: l, k => if p.1 == k then some p.2 else getAssoc l k

/-- `nodePrototype.property(key)` (read): `this.data.properties[key]`. -/
def getProp (n : MNode) (k : String) : Option PVal :=
  getAssoc n.props k

/-- A JS object-property assignment `obj[k] = v`: update in place when the key
exists (keeping its position), otherwise append. -/
def setAssoc (l : List (String × PVal)) (k : String) (v : PVal) :
    List (String × PVal) :=
  if l.any (fun p => p.1 == k) then
    l.map (fun p => if p.1 == k then (k, v) else p)
  else l ++ [(k, v)]

/-- `nodePrototype.property(key, value)` (write) from `src/graph/graph.js`
lines 38–51, for a non-null value. -/
def setProp (n : MNode) (k : String) (v : PVal) : MNode :=
  { n with props := setAssoc n.props k v }

/-- Node lookup `_meta._nodes[id]` (node objects are canonical per id). -/
def nodeById (g : MGraph) (i : String) : Option MNode :=
  g.nodes.find? (fun n => n.id == i)

/-- `nodePrototype.targets(edgeLabel)`: the targets of this node's outgoing
edges with the given label, in edge insertion order.  A dangling edge (target
id absent from the node map) would make the JS crash downstream; `filterMap`
skips it. -/
def targetsOf (g : MGraph) (label : String) (nid : String) : List MNode :=
  ((g.edges.filter (fun e => e.label == label && e.src == nid)).map (·.tgt)).filterMap
    (nodeById g)

/-- `classesOf(pkg)` from the node helpers:
`pkg.targets("contains").filter(n => n.hasLabel("Structure"))`. -/
def classesOf (g : MGraph) (pkg : MNode) : List MNode :=
  (targetsOf g "contains" pkg.id).filter (fun n => n.labels.contains "Structure")

/-- `methodsOf(clasz)` from the node helpers: `clasz.targets("hasScript")`. -/
def methodsOf (g : MGraph) (cls : MNode) : List MNode :=
  targetsOf g "hasScript" cls.id

/-- `layerOf(method)` from the node helpers:
`method.property("layer") || "Undefined"`.  An empty string is falsy in JS; a
node-reference value is a truthy object whose property-key coercion is
`"[object Object]"` (never produced by real data). -/
def layerOf (m : MNode) : String :=
  match getProp m "layer" with
  | some (.s v) => if v = "" then "Undefined" else v
  | some (.ref _) => "[object Object]"
  | none => "Undefined"

/-! ## Hue helpers (`src/utils/utils.js`) -/

/-- JS `ToInt32`: reduce an exact integer to the 32-bit two's-complement
range, as the `<<` operator does. -/
def toInt32 (n : Int) : Int :=
  (n + 2 ^ 31) % 2 ^ 32 - 2 ^ 31

/-- One step of the string-hash reduce in `stringToHue`:
`(acc << 5) - acc + char.charCodeAt(0)` (the shift operates on `ToInt32(acc)`
and truncates to 32 bits; the remaining arithmetic is exact). -/
def jsHashStep (acc : Int) (c : Char) : Int :=
  toInt32 (toInt32 acc * 32) - acc + (c.toNat : Int)

/-- The fallback `hashHue` of `stringToHue`:
`Math.abs(hash) % 18 * 20` over the character fold. -/
def hashHue (s : String) : Int :=
  (((s.data.foldl jsHashStep 0).natAbs % 18 : Nat) : Int) * 20

/-- The initial module-level `hueMap` of `src/utils/utils.js` (a mutable
global; `buildContext` may overwrite it in BFS mode, so the map is threaded
as an explicit parameter). -/
def hueMap0 : List (String × Int) :=
  [("Presentation Layer", 0), ("Service Layer", 50),
   ("Domain Layer", 120), ("Data Source Layer", 240)]

/-- `stringToHue(str)`: `hueMap[str] ?? hashHue(str)`. -/
def stringToHue (hm : List (String × Int)) (s : String) : Int :=
  match getAssoc hm s with
  | some h => h
  | none => hashHue s

/-! ## Class Composition Analyzer (`getBubbleDataWithContext`) -/

/-- The `{class, bubbleData}` result of `getBubbleDataWithContext`; the class
node reference is modelled by its id. -/
structure ClassBubble where
  classId : String
  bubbleData : List BEntry
deriving DecidableEq, Repr

/-- One step of the layer-count reduce in `getBubbleDataWithContext`:
`counts[layerType] = (counts[layerType] || 0) + 1` (update in place, insert
new keys at the end — JS object key order). -/
def bumpCount (counts : List (String × ℚ)) (k : String) : List (String × ℚ) :=
  if counts.any (fun p => p.1 == k) then
    counts.map (fun p => if p.1 == k then (p.1, p.2 + 1) else p)
  else counts ++ [(k, 1)]

/-- `getBubbleDataWithContext(context)(clasz)` from `src/model/composition.js`
lines 25–57. -/
def getBubbleData (layers : List (Option String)) (hm : List (String × Int))
    (g : MGraph) (clasz : MNode) : ClassBubble :=
  let methodList := methodsOf g clasz
  if methodList.length > 0 then
    let layerCounts := methodList.foldl (fun counts m => bumpCount counts (layerOf m)) []
    let bubbleData := layerCounts.map (fun p =>
      BEntry.mk p.1 p.2 (includesStr layers p.1) (stringToHue hm p.1))
    ⟨clasz.id, bubbleData⟩
  else
    ⟨clasz.id, [⟨"Undefined", 1, false, 0⟩]⟩

/-! ## Package Aggregator (`getBubbleTeaDataWithContext`) -/

/-- The `{package, dominant, bubbleTeaData, bubbleData}` aggregate; the
package node reference is modelled by its id. -/
structure BTData where
  packageId : String
  dominant : List String
  bubbleTeaData : List Entry
  bubbleData : List ClassBubble
deriving DecidableEq, Repr

/-- JS `new Set(list)` iterated back into an array: first-occurrence order. -/
def dedupFirst (l : List String) : List String :=
  l.foldl (fun acc s => if acc.any (fun x => x == s) then acc else acc ++ [s]) []

/-- Step 2 of `getBubbleTeaDataWithContext`, per node: classes contained in
the package get `property("package", pkg)` written; node references are
stored as the referenced node's id. -/
def aggMark (g : MGraph) (pkg : MNode) : MNode → MNode :=
  fun n => if (classesOf g pkg).any (fun c => c.id == n.id)
    then setProp n "package" (.ref pkg.id) else n

/-- The graph after step 2's in-place `claszList.forEach(cls =>
cls.property("package", pkg))`. -/
def aggClassMutate (g : MGraph) (pkg : MNode) : MGraph :=
  { g with nodes := g.nodes.map (aggMark g pkg) }

/-- Step 3: per-class bubble data (computed on the mutated graph, which the
in-place JS mutation has already produced at this point). -/
def aggData (layers : List (Option String)) (hm : List (String × Int))
    (g : MGraph) (pkg : MNode) : List ClassBubble :=
  (classesOf g pkg).map (fun clasz => getBubbleData layers hm (aggClassMutate g pkg) clasz)

/-- Step 4, per class: normalize a class's vector so its counts divide by the
class total (`totalCount > 0 ? e.count / totalCount : 0`). -/
def normalizeClassVector (cb : ClassBubble) : List Entry :=
  let totalCount := sumQ (cb.bubbleData.map (·.count))
  cb.bubbleData.map (fun e =>
    Entry.mk e.layer (if 0 < totalCount then e.count / totalCount else 0))

/-- Step 4 over the whole package. -/
def aggPkgBubbleData (layers : List (Option String)) (hm : List (String × Int))
    (g : MGraph) (pkg : MNode) : List (List Entry) :=
  (aggData layers hm g pkg).map normalizeClassVector

/-- Step 5: the distinct layers used by the package's classes, in first-seen
order.  The source's `filter(layer != null)` is the identity here because
every layer name this code stores is a string. -/
def aggUniqueLayers (layers : List (Option String)) (hm : List (String × Int))
    (g : MGraph) (pkg : MNode) : List String :=
  dedupFirst ((((aggData layers hm g pkg).map (·.bubbleData)).flatten).map (·.layer))

/-- Step 6, per layer: the average normalized share
(`count > 0 ? totalCount / count : 0` over the number of classes). -/
def averageEntry (pkgBubbleData : List (List Entry)) (layer : String) : Entry :=
  let layerData := pkgBubbleData.flatten.filter (fun e => e.layer == layer)
  let totalCount := sumQ (layerData.map (·.count))
  let count := (pkgBubbleData.length : ℚ)
  Entry.mk layer (if 0 < count then totalCount / count else 0)

/-- Step 6 over all layers used by the package. -/
def aggAverageCounts (layers : List (Option String)) (hm : List (String × Int))
    (g : MGraph) (pkg : MNode) : List Entry :=
  (aggUniqueLayers layers hm g pkg).map (averageEntry (aggPkgBubbleData layers hm g pkg))

/-- `getBubbleTeaDataWithContext(context)(pkg)` from
`src/model/bubbleTeaData.js` (lines 179–237 of `src/model/composition.js` as
packed), assembled from the step functions above.  Step 2's
`cls.property("package", pkg)` mutates the graph's class nodes in place; the
mutated graph is returned alongside the data.  Step 7 resolves the dominant
layer(s) of the averaged vector; step 8 assembles the result (node references
modelled by ids). -/
def getBubbleTeaData (layers : List (Option String)) (hm : List (String × Int))
    (g : MGraph) (pkg : MNode) : BTData × MGraph :=
  (⟨pkg.id,
    dominatingLayers layers (aggAverageCounts layers hm g pkg),
    aggAverageCounts layers hm g pkg,
    aggData layers hm g pkg⟩,
   aggClassMutate g pkg)

/-! ## Layer Table construction (`buildContext` / `bfsSort`, `src/ui/tooltip.js`) -/

/-- A layer-marker node as seen by `bfsSort`: edge objects carry their resolved
endpoint node objects (`edge.source()`, `edge.target()`), which expose `id()`
and `property("simpleName")`. -/
structure GNode where
  id : String
  simpleName : String
deriving DecidableEq, Repr

/-- An `allowedDependency` edge with resolved endpoints. -/
structure GEdge where
  source : GNode
  target : GNode
deriving DecidableEq, Repr

/-- `Set.add` keyed by node identity (node objects are canonical per id), with
JS `Set` insertion order. -/
def addById (acc : List GNode) (n : GNode) : List GNode :=
  if acc.any (fun m => m.id == n.id) then acc else acc ++ [n]

/-- The `sources` set of `bfsSort` step 1. -/
def sourcesList (edgeList : List GEdge) : List GNode :=
  edgeList.foldl (fun acc e => addById acc e.source) []

/-- The `targets` set of `bfsSort` step 1. -/
def targetsList (edgeList : List GEdge) : List GNode :=
  edgeList.foldl (fun acc e => addById acc e.target) []

/-- `bfsSort` step 2: the first source that never appears as a target
(`none` models the thrown `Error`). -/
def findRoot (edgeList : List GEdge) : Option GNode :=
  (sourcesList edgeList).find?
    (fun src => !(targetsList edgeList).any (fun tgt => tgt.id == src.id))

/-- The inner `edgeList.forEach` of one BFS iteration (`bfsSort` step 4):
starting from the pending queue and visited set, push every not-yet-visited
target of an edge out of `current`, updating `visited` as we go. -/
def bfsInner (edgeList : List GEdge) (current : GNode)
    (s : List GNode × List GNode) : List GNode × List GNode :=
  edgeList.foldl (fun s e =>
    if e.source.id == current.id && !(s.2.any (fun v => v.id == e.target.id)) then
      (s.1 ++ [e.target], s.2 ++ [e.target])
    else s) s

/-- The `while (queue.length > 0)` loop of `bfsSort` step 4.  The JS loop
always terminates (each dequeued node was enqueued together with a distinct
entry of `visited`, whose ids all come from the finite edge list); the `fuel`
argument only makes that termination explicit, and
`bfsLoop_isSome_of_fuel` below shows the fuel chosen by `bfsSort` is never
exhausted. -/
def bfsLoop (edgeList : List GEdge) :
    Nat → List GNode → List GNode → List GNode → Option (List GNode)
  | _, [], _, result => some result
  | 0, _ :: _, _, _ => none
  | fuel + 1, current :: rest, visited, result =>
    let s := bfsInner edgeList current (rest, visited)
    bfsLoop edgeList fuel s.1 s.2 (result ++ [current])

/-- `bfsSort(edgeList)` from `src/ui/tooltip.js` lines 409–452; `none` models
the thrown "No root found" error. -/
def bfsSort (edgeList : List GEdge) : Option (List GNode) :=
  match findRoot edgeList with
  | none => none
  | some root => bfsLoop edgeList (2 * (2 * edgeList.length) + 1) [root] [root] []

/-- The layer-array construction in `buildContext` (`src/ui/tooltip.js` lines
366–376): with a non-empty `allowedDependency` edge list, the BFS order of
layer `simpleName`s prefixed by `null`; otherwise the fixed default list
(which the source does NOT prefix with `null`).  The concurrent `hueMap`
update is presentation-only and not modelled.  `none` models the
`bfsSort` error propagating out. -/
def buildContextLayers (allowedDependencies : List GEdge) :
    Option (List (Option String)) :=
  if allowedDependencies.length ≠ 0 then
    match bfsSort allowedDependencies with
    | none => none
    | some order => some (none :: order.map (fun n => some n.simpleName))
  else
    some [some "Presentation Layer", some "Service Layer",
          some "Domain Layer", some "Data Source Layer"]

/-! ## Layer Bucketing (`drawServingTableWithContext`, `src/render/servingTable.js`
lines 9–39 — the data portion; everything after it is SVG drawing) -/

/-- `generateLayerOrder(layers)`: `[layers[i]]` and `[layers[i], layers[i+1]]`
for each consecutive pair, then `[layers[layers.length-1]]`, then the
cross-cutting `[]`.  An out-of-range access (`layers[-1]` on an empty input)
is JS `undefined`, modelled by the `none` default, which joins to `""` just
as `undefined` does. -/
def generateLayerOrder (layers : List (Option String)) : List (List (Option String)) :=
  ((List.range (layers.length - 1)).flatMap (fun i =>
    [[layers.getD i none], [layers.getD i none, layers.getD (i + 1) none]]))
  ++ [[layers.getD (layers.length - 1) none]] ++ [[]]

/-- `Array.prototype.join(", ")` over layer-name strings. -/
def joinKey : List String → String
  | [] => ""
  | [x] => x
  | x :: xs => x ++ ", " ++ joinKey xs

/-- `Array.prototype.join(", ")` over possibly-`null` layer entries (JS joins
`null`/`undefined` as the empty string). -/
def joinKeyO (l : List (Option String)) : String :=
  joinKey (l.map (fun o => o.getD ""))

/-- JS object assignment `layers[key] = []` building the bucket map
(string-keyed, insertion-ordered). -/
def setBucket (buckets : List (String × List BTData)) (k : String)
    (v : List BTData) : List (String × List BTData) :=
  if buckets.any (fun p => p.1 == k) then
    buckets.map (fun p => if p.1 == k then (k, v) else p)
  else buckets ++ [(k, v)]

/-- `layers[key].push(btd)`.  The key is always present at the call sites
(either just tested with `in`, or the cross-cutting `''` key created by
`generateLayerOrder`'s trailing `[]`); on an absent key the JS would crash,
here the map is returned unchanged. -/
def pushBucket (buckets : List (String × List BTData)) (k : String)
    (x : BTData) : List (String × List BTData) :=
  buckets.map (fun p => if p.1 == k then (p.1, p.2 ++ [x]) else p)

/-- `bubbleTeaData.dominant.sort((a, b) => context.layers.indexOf(a) -
context.layers.indexOf(b))` — a stable ascending sort by layer index. -/
def sortDominant (ctxLayers : List (Option String)) (dom : List String) :
    List String :=
  dom.mergeSort (fun a b => decide (jsIndexOf ctxLayers a ≤ jsIndexOf ctxLayers b))

/-- The empty bucket map keyed by `generateLayerOrder(context.layers.slice(1))`:
`layerOrder.forEach(layer => (layers[layer.join(", ")] = []))`. -/
def bucketInit (ctxLayers : List (Option String)) : List (String × List BTData) :=
  (generateLayerOrder (ctxLayers.drop 1)).foldl
    (fun acc l => setBucket acc (joinKeyO l) []) []

/-- One iteration of the categorisation `forEach` in
`drawServingTableWithContext`: sort `dominant` in place into LayerTable
order, join it into a key, and push into the matching bucket — or, when no
bucket matches, force `dominant` to `[]` and push into the cross-cutting
`''` bucket. -/
def bucketStep (ctxLayers : List (Option String))
    (buckets : List (String × List BTData)) (btd : BTData) :
    List (String × List BTData) :=
  let sorted := sortDominant ctxLayers btd.dominant
  let key := joinKey sorted
  if buckets.any (fun p => p.1 == key) then
    pushBucket buckets key { btd with dominant := sorted }
  else
    pushBucket buckets "" { btd with dominant := [] }

/-- The bucketing portion of `drawServingTableWithContext(context)` from
`src/render/servingTable.js` lines 9–39. -/
def bucketPackagesByLayer (ctxLayers : List (Option String)) (arr : List BTData) :
    List (String × List BTData) :=
  arr.foldl (bucketStep ctxLayers) (bucketInit ctxLayers)

/-! ## Lemmas about the top-2 scan of the Dominance Resolver -/

/-- A tracked top slot holds a genuine positive count strictly 1.5-dominated
by `c` (or is still the initial `-Infinity`). -/
def okTop (c : ℚ) : Top → Prop
  | none => True
  | some (m, _) => 0 < m ∧ 3 / 2 * m < c

lemma topStep_invA {c : ℚ} {e : Entry} {s : Top × Top}
    (he : 0 < e.count ∧ 3 / 2 * e.count < c)
    (h : okTop c s.1 ∧ okTop c s.2) :
    okTop c (topStep s e).1 ∧ okTop c (topStep s e).2 := by
  unfold topStep
  split
  · exact ⟨he, h.1⟩
  · split
    · exact ⟨h.1, he⟩
    · exact h

lemma foldl_invA (c : ℚ) (l : List Entry) :
    ∀ s : Top × Top, (∀ e ∈ l, 0 < e.count ∧ 3 / 2 * e.count < c) →
      okTop c s.1 ∧ okTop c s.2 →
      okTop c (l.foldl topStep s).1 ∧ okTop c (l.foldl topStep s).2 := by
  induction l with
  | nil => intro s _ h; exact h
  | cons e l ih =>
    intro s hl h
    exact ih (topStep s e) (fun x hx => hl x (List.mem_cons_of_mem _ hx))
      (topStep_invA (hl e (List.mem_cons_self _ _)) h)

lemma topStep_install {c : ℚ} {L : String} {s : Top × Top}
    (h : okTop c s.1) :
    (topStep s (Entry.mk L c)).1 = some (c, L) ∧ okTop c (topStep s (Entry.mk L c)).2 := by
  have hlt : ltTop (Entry.mk L c).count s.1 := by
    rcases hs : s.1 with _ | ⟨m, l⟩
    · trivial
    · rw [hs] at h
      have := h.1
      have := h.2
      show m < c
      nlinarith
  unfold topStep
  rw [if_pos hlt]
  exact ⟨rfl, h⟩

lemma topStep_invB {c : ℚ} {L : String} {e : Entry} {s : Top × Top}
    (he : 0 < e.count ∧ 3 / 2 * e.count < c)
    (h : s.1 = some (c, L) ∧ okTop c s.2) :
    (topStep s e).1 = some (c, L) ∧ okTop c (topStep s e).2 := by
  have hnlt : ¬ ltTop e.count s.1 := by
    rw [h.1]
    show ¬ c < e.count
    nlinarith [he.1, he.2]
  unfold topStep
  rw [if_neg hnlt]
  split
  · exact ⟨h.1, he⟩
  · exact h

lemma foldl_invB (c : ℚ) (L : String) (l : List Entry) :
    ∀ s : Top × Top, (∀ e ∈ l, 0 < e.count ∧ 3 / 2 * e.count < c) →
      s.1 = some (c, L) ∧ okTop c s.2 →
      (l.foldl topStep s).1 = some (c, L) ∧ okTop c (l.foldl topStep s).2 := by
  induction l with
  | nil => intro s _ h; exact h
  | cons e l ih =>
    intro s hl h
    exact ih (topStep s e) (fun x hx => hl x (List.mem_cons_of_mem _ hx))
      (topStep_invB (hl e (List.mem_cons_self _ _)) h)

/-- The fold over a two-entry vector: the larger count wins the `max1` slot,
a tie keeps the first-seen entry (strict `>` comparisons). -/
lemma topStep_two (e1 e2 : Entry) :
    [e1, e2].foldl topStep (none, none) =
      if e1.count < e2.count then (some (e2.count, e2.layer), some (e1.count, e1.layer))
      else (some (e1.count, e1.layer), some (e2.count, e2.layer)) := by
  have h1 : topStep ((none, none) : Top × Top) e1 = (some (e1.count, e1.layer), none) := rfl
  simp only [List.foldl_cons, List.foldl_nil, h1]
  unfold topStep
  dsimp only
  simp only [ltTop]
  by_cases hlt : e1.count < e2.count
  · simp [hlt]
  · simp [hlt]

/-- `|a - b| = |b - a|` on integers. -/
lemma natAbs_sub_comm (a b : Int) : (a - b).natAbs = (b - a).natAbs := by
  omega

/-- Shared characterisation of the resolver on a two-entry vector with
near-equal counts (neither strictly exceeds 1.5× the other): the adjacency
gate decides between the empty result and the pair ordered by descending
count with the first entry winning ties — NOT by LayerTable order. -/
lemma dominating_pair (layers : List (Option String)) (e1 e2 : Entry)
    (h1 : ¬ 3 / 2 * e2.count < e1.count) (h2 : ¬ 3 / 2 * e1.count < e2.count) :
    dominatingLayers layers [e1, e2] =
      if (jsIndexOf layers e1.layer - jsIndexOf layers e2.layer).natAbs < 2 then
        (if e1.count < e2.count then [e2.layer, e1.layer] else [e1.layer, e2.layer])
      else [] := by
  unfold dominatingLayers
  rw [if_neg (by norm_num), topStep_two]
  by_cases hlt : e1.count < e2.count
  · rw [if_pos hlt, if_pos hlt]
    show (if 3 / 2 * e1.count < e2.count then [e2.layer] else _) = _
    rw [if_neg h2]
    by_cases hadj : (jsIndexOf layers e1.layer - jsIndexOf layers e2.layer).natAbs < 2
    · have hadj' : (jsIndexOf layers e2.layer - jsIndexOf layers e1.layer).natAbs < 2 := by
        rwa [natAbs_sub_comm] at hadj
      rw [if_pos hadj, if_pos ⟨Or.inl rfl, hadj'⟩]
    · have hadj' : ¬ (jsIndexOf layers e2.layer - jsIndexOf layers e1.layer).natAbs < 2 := by
        rwa [natAbs_sub_comm] at hadj
      rw [if_neg hadj, if_neg (fun hc => hadj' (And.right hc))]
  · rw [if_neg hlt, if_neg hlt]
    show (if 3 / 2 * e2.count < e1.count then [e1.layer] else _) = _
    rw [if_neg h1]
    by_cases hadj : (jsIndexOf layers e1.layer - jsIndexOf layers e2.layer).natAbs < 2
    · rw [if_pos hadj, if_pos ⟨Or.inl rfl, hadj⟩]
    · rw [if_neg hadj, if_neg (fun hc => hadj (And.right hc))]

/-- `arraysEqual` is exactly list equality. -/
lemma arraysEqual_iff (a b : List String) : arraysEqual a b = true ↔ a = b := by
  induction a generalizing b with
  | nil => cases b <;> simp [arraysEqual]
  | cons x xs ih =>
    cases b with
    | nil => simp [arraysEqual]
    | cons y ys =>
      have ihy := ih ys
      simp only [arraysEqual, List.length_cons, List.zip_cons_cons, List.all_cons,
        Bool.and_eq_true, beq_iff_eq, Nat.add_right_cancel_iff, List.cons.injEq] at ihy ⊢
      constructor
      · rintro ⟨hlen, hxy, hall⟩
        exact ⟨hxy, ihy.mp ⟨hlen, hall⟩⟩
      · rintro ⟨hxy, hrest⟩
        have h := ihy.mpr hrest
        exact ⟨h.1, hxy, h.2⟩

/-- A present element is found: `jsIndexOf?` succeeds. -/
lemma jsIndexOf?_isSome {tbl : List (Option String)} {l : String}
    (h : some l ∈ tbl) : ∃ i, jsIndexOf? tbl l = some i := by
  induction tbl with
  | nil => simp at h
  | cons o rest ih =>
    by_cases ho : o == some l
    · exact ⟨0, by simp [jsIndexOf?, ho]⟩
    · have hmem : some l ∈ rest := by
        rcases List.mem_cons.mp h with h' | h'
        · exact absurd h' (by simpa using (fun hx => ho (by simp [hx])))
        · exact h'
      obtain ⟨i, hi⟩ := ih hmem
      exact ⟨i + 1, by simp [jsIndexOf?, ho, hi]⟩

/-- `some l ∈ tbl` gives a non-negative `indexOf`. -/
lemma jsIndexOf_nonneg {tbl : List (Option String)} {l : String}
    (h : some l ∈ tbl) : 0 ≤ jsIndexOf tbl l := by
  obtain ⟨i, hi⟩ := jsIndexOf?_isSome h
  unfold jsIndexOf
  rw [hi]
  positivity

/-- In a sentinel-prefixed table (`null` at index 0) every present layer name
has index at least 1. -/
lemma jsIndexOf_pos_of_sentinel {tbl : List (Option String)} {l : String}
    (hs : tbl.head? = some none) (h : some l ∈ tbl) : 1 ≤ jsIndexOf tbl l := by
  rcases tbl with _ | ⟨x, rest⟩
  · simp at hs
  · simp only [List.head?_cons, Option.some.injEq] at hs
    subst hs
    have hmem : some l ∈ rest := by
      rcases List.mem_cons.mp h with h' | h'
      · exact absurd h'.symm (by simp)
      · exact h'
    obtain ⟨i, hi⟩ := jsIndexOf?_isSome hmem
    unfold jsIndexOf jsIndexOf?
    rw [show ((none : Option String) == some l) = false from rfl]
    simp only [Bool.false_eq_true, if_false, hi, Option.map_some']
    omega

/-- The sentinel-prefixed LayerTable used by the spec's concrete scenarios. -/
def sentinelLayers : List (Option String) :=
  [none, some "Presentation Layer", some "Service Layer",
   some "Domain Layer", some "Data Source Layer"]

/-- C1: a one-entry composition vector resolves to that entry's layer; and in
any vector of positively-counted entries (every vector this program builds has
positive counts) an entry whose count strictly exceeds 1.5× every other
entry's count is returned as the unique dominant layer. -/
theorem claim1_dominance_single_max :
    (∀ (layers : List (Option String)) (e : Entry),
        dominatingLayers layers [e] = [e.layer]) ∧
    (∀ (layers : List (Option String)) (pre post : List Entry) (d : Entry),
        0 < d.count →
        (∀ e ∈ pre ++ post, 0 < e.count ∧ 3 / 2 * e.count < d.count) →
        dominatingLayers layers (pre ++ d :: post) = [d.layer]) := by
  constructor
  · intro layers e; rfl
  · intro layers pre post d hd hall
    have hpre : ∀ e ∈ pre, 0 < e.count ∧ 3 / 2 * e.count < d.count :=
      fun e he => hall e (List.mem_append_left _ he)
    have hpost : ∀ e ∈ post, 0 < e.count ∧ 3 / 2 * e.count < d.count :=
      fun e he => hall e (List.mem_append_right _ he)
    have hA := foldl_invA d.count pre ((none, none) : Top × Top) hpre ⟨trivial, trivial⟩
    have hB0 := topStep_install (c := d.count) (L := d.layer)
      (s := pre.foldl topStep (none, none)) hA.1
    have hB := foldl_invB d.count d.layer post (topStep (pre.foldl topStep (none, none)) d)
      hpost hB0
    have hsplit : (pre ++ d :: post).foldl topStep ((none, none) : Top × Top)
        = post.foldl topStep (topStep (pre.foldl topStep (none, none)) d) := by
      rw [List.foldl_append, List.foldl_cons]
    unfold dominatingLayers
    rw [if_neg (show ¬ (pre ++ d :: post).length < 1 by simp)]
    rw [hsplit]
    rcases hF : post.foldl topStep (topStep (pre.foldl topStep (none, none)) d) with ⟨t1, t2⟩
    rw [hF] at hB
    obtain ⟨h1, h2⟩ := hB
    rw [show t1 = some (d.count, d.layer) from h1]
    rcases t2 with _ | ⟨m2, l2⟩
    · rfl
    · have h2' : 3 / 2 * m2 < d.count := h2.2
      dsimp only
      rw [if_pos h2']

/-- Witness for C1: a concrete three-entry vector whose head strictly
1.5-dominates the others. -/
theorem claim1_witness :
    dominatingLayers sentinelLayers [Entry.mk "A" 5, Entry.mk "B" 2, Entry.mk "C" 1] = ["A"] := by
  have h := claim1_dominance_single_max.2 sentinelLayers []
    [Entry.mk "B" 2, Entry.mk "C" 1] (Entry.mk "A" 5)
    (by norm_num)
    (by
      intro e he
      simp only [List.nil_append, List.mem_cons, List.not_mem_nil, or_false] at he
      rcases he with rfl | rfl
      · constructor <;> norm_num
      · constructor <;> norm_num)
  simpa using h

/-- C2 counterexample: at the sentinel table with the two-entry vector
`[{Service Layer: 3}, {Presentation Layer: 2}]` the claim's conditions hold
(counts near-equal: neither strictly exceeds 1.5× the other; layers adjacent,
index distance 1), yet the resolver returns the pair in descending-count
order `[Service, Presentation]`, not the LayerTable order
`[Presentation, Service]`. -/
theorem claim2_counterexample :
    (¬ 3 / 2 * (2 : ℚ) < 3 ∧ ¬ 3 / 2 * (3 : ℚ) < 2 ∧
      (jsIndexOf sentinelLayers "Service Layer"
        - jsIndexOf sentinelLayers "Presentation Layer").natAbs = 1) ∧
    dominatingLayers sentinelLayers [Entry.mk "Service Layer" 3, Entry.mk "Presentation Layer" 2]
      = ["Service Layer", "Presentation Layer"] ∧
    dominatingLayers sentinelLayers [Entry.mk "Service Layer" 3, Entry.mk "Presentation Layer" 2]
      ≠ ["Presentation Layer", "Service Layer"] := by
  have heq : dominatingLayers sentinelLayers
      [Entry.mk "Service Layer" 3, Entry.mk "Presentation Layer" 2]
      = ["Service Layer", "Presentation Layer"] := by
    norm_num +decide [dominatingLayers, topStep, ltTop, jsIndexOf, jsIndexOf?, sentinelLayers]
  refine ⟨⟨by norm_num, by norm_num, by decide⟩, heq, ?_⟩
  rw [heq]
  simp

/-- C2 amended: for a two-entry vector with near-equal counts the adjacency
gate (index distance < 2) decides between `[]` and the pair — but the pair is
ordered by descending count (first entry wins ties), not by LayerTable
order. -/
theorem claim2_adjacency_gate_amended (layers : List (Option String)) (e1 e2 : Entry)
    (h1 : ¬ 3 / 2 * e2.count < e1.count) (h2 : ¬ 3 / 2 * e1.count < e2.count) :
    dominatingLayers layers [e1, e2] =
      if (jsIndexOf layers e1.layer - jsIndexOf layers e2.layer).natAbs < 2 then
        (if e1.count < e2.count then [e2.layer, e1.layer] else [e1.layer, e2.layer])
      else [] :=
  dominating_pair layers e1 e2 h1 h2

/-- Witness for C2 (amended): near-equal counts on layers two apart give `[]`. -/
theorem claim2_witness :
    dominatingLayers sentinelLayers [Entry.mk "Presentation Layer" 2, Entry.mk "Domain Layer" 2]
      = [] := by
  have h := claim2_adjacency_gate_amended sentinelLayers
    (Entry.mk "Presentation Layer" 2) (Entry.mk "Domain Layer" 2) (by norm_num) (by norm_num)
  rw [h, if_neg (by decide)]

/-- C3 counterexample: with no allowed-dependency edges the constructed layer
array is the plain default list whose index 0 is `"Presentation Layer"`, not
the `null` sentinel the claim requires in both construction modes. -/
theorem claim3_counterexample :
    buildContextLayers [] = some [some "Presentation Layer", some "Service Layer",
      some "Domain Layer", some "Data Source Layer"] ∧
    ((buildContextLayers []).getD []).head? ≠ some Option.none := by
  constructor
  · rfl
  · decide

/-- C3 amended: only the BFS-derived mode is sentinel-prefixed (`null` at
index 0, the BFS layer names at 1..N); the fallback mode yields the plain
default 4-name list with no sentinel (real names at indices 0..3). -/
theorem claim3_sentinel_amended :
    (buildContextLayers [] = some [some "Presentation Layer", some "Service Layer",
        some "Domain Layer", some "Data Source Layer"]) ∧
    (∀ (deps : List GEdge) (res : List (Option String)),
      deps ≠ [] → buildContextLayers deps = some res →
      res.head? = some Option.none ∧
        ∃ names : List String, res = Option.none :: names.map some) := by
  constructor
  · rfl
  · intro deps res hne hres
    unfold buildContextLayers at hres
    rw [if_pos (List.length_pos.mpr hne).ne'] at hres
    rcases hbfs : bfsSort deps with _ | order
    · rw [hbfs] at hres; cases hres
    · rw [hbfs] at hres
      obtain rfl : (Option.none :: order.map (fun n => some n.simpleName)) = res :=
        Option.some.inj hres
      exact ⟨rfl, ⟨order.map (fun n => n.simpleName), by simp [List.map_map, Function.comp]⟩⟩

/-- Witness for C3 (amended) at a concrete one-edge dependency list. -/
theorem claim3_witness :
    ([Option.none, some "Presentation Layer", some "Service Layer"] :
        List (Option String)).head? = some Option.none ∧
    ∃ names : List String,
      ([Option.none, some "Presentation Layer", some "Service Layer"] :
        List (Option String)) = Option.none :: names.map some :=
  claim3_sentinel_amended.2
    [GEdge.mk (GNode.mk "a" "Presentation Layer") (GNode.mk "b" "Service Layer")]
    [Option.none, some "Presentation Layer", some "Service Layer"]
    (by decide) (by decide)

/-- C5 counterexample: ties of `compareCompositions` are not transitive, and
`compare(a)(b) < 0` with `compare(b)(c) = 0` does not force
`compare(a)(c) < 0`: with `a = [{S:1}]`, `c = [{S:2},{S:2}]` (dominant
`[S, S]`, score 2 = index of S) and `b = [{S:3},{P:1}]` (dominant `[S]`,
proportion 3/4), `compare(a)(c) = 0` and `compare(c)(b) = 0` yet
`compare(a)(b) = -1/4 ≠ 0`. -/
theorem claim5_counterexample :
    layerCompositionComparator sentinelLayers [Entry.mk "Service Layer" 1]
        [Entry.mk "Service Layer" 2, Entry.mk "Service Layer" 2] = 0 ∧
    layerCompositionComparator sentinelLayers
        [Entry.mk "Service Layer" 2, Entry.mk "Service Layer" 2]
        [Entry.mk "Service Layer" 3, Entry.mk "Presentation Layer" 1] = 0 ∧
    layerCompositionComparator sentinelLayers [Entry.mk "Service Layer" 1]
        [Entry.mk "Service Layer" 3, Entry.mk "Presentation Layer" 1] < 0 := by
  refine ⟨?_, ?_, ?_⟩ <;>
    norm_num +decide [layerCompositionComparator, dominatingLayers, topStep, ltTop,
      jsIndexOf, jsIndexOf?, arraysEqual, calculateDominanceScore, calculateProportion,
      sumQ, sentinelLayers]

/-- C5 amended: the comparator is antisymmetric (`compare(a)(b) =
-compare(b)(a)`) with `compare(a)(a) = 0`, but it is not a strict total
preorder: ties are not transitive (see the counterexample), so re-sorting an
already-sorted list is not guaranteed to preserve the order. -/
theorem claim5_comparator_amended (layers : List (Option String)) (a b : List Entry) :
    layerCompositionComparator layers a a = 0 ∧
    layerCompositionComparator layers a b = -layerCompositionComparator layers b a := by
  constructor
  · simp only [layerCompositionComparator]
    rw [if_pos ((arraysEqual_iff _ _).mpr rfl)]
    ring
  · simp only [layerCompositionComparator]
    by_cases h : dominatingLayers layers a = dominatingLayers layers b
    · rw [if_pos ((arraysEqual_iff _ _).mpr h), if_pos ((arraysEqual_iff _ _).mpr h.symm)]
      rw [h]
      ring
    · rw [if_neg (fun hc => h ((arraysEqual_iff _ _).mp hc)),
        if_neg (fun hc => h (((arraysEqual_iff _ _).mp hc).symm))]
      ring

/-- C10: two distinct layer names both absent from the LayerTable (indexOf
`-1` for both) pass the adjacency gate (index distance 0), so a near-equal
two-entry vector of unrecognized layers resolves to a co-dominant pair; the
comparator's dominance score of the result is `-1`, which sorts strictly
before every recognized layer (index ≥ 1 in a sentinel-prefixed table) and
before the cross-cutting sentinel score `100`. -/
theorem claim10_unrecognized_codominance (tbl : List (Option String)) (e1 e2 : Entry)
    (ha1 : jsIndexOf tbl e1.layer = -1) (ha2 : jsIndexOf tbl e2.layer = -1)
    (h1 : ¬ 3 / 2 * e2.count < e1.count) (h2 : ¬ 3 / 2 * e1.count < e2.count) :
    (dominatingLayers tbl [e1, e2] =
        if e1.count < e2.count then [e2.layer, e1.layer] else [e1.layer, e2.layer]) ∧
    calculateDominanceScore tbl (dominatingLayers tbl [e1, e2]) = -1 ∧
    (∀ l, some l ∈ tbl →
      calculateDominanceScore tbl (dominatingLayers tbl [e1, e2]) < (jsIndexOf tbl l : ℚ)) ∧
    (tbl.head? = some none → ∀ l, some l ∈ tbl → 1 ≤ jsIndexOf tbl l) ∧
    calculateDominanceScore tbl [] = 100 ∧
    calculateDominanceScore tbl (dominatingLayers tbl [e1, e2]) < 100 := by
  have hpair : dominatingLayers tbl [e1, e2] =
      if e1.count < e2.count then [e2.layer, e1.layer] else [e1.layer, e2.layer] := by
    rw [dominating_pair tbl e1 e2 h1 h2]
    rw [if_pos (show (jsIndexOf tbl e1.layer - jsIndexOf tbl e2.layer).natAbs < 2 by
      rw [ha1, ha2]; decide)]
  have hscore : calculateDominanceScore tbl (dominatingLayers tbl [e1, e2]) = -1 := by
    rw [hpair]
    by_cases hlt : e1.count < e2.count
    · rw [if_pos hlt]
      show ((jsIndexOf tbl e2.layer : ℚ) + (jsIndexOf tbl e1.layer : ℚ)) / 2 = -1
      rw [ha1, ha2]; norm_num
    · rw [if_neg hlt]
      show ((jsIndexOf tbl e1.layer : ℚ) + (jsIndexOf tbl e2.layer : ℚ)) / 2 = -1
      rw [ha1, ha2]; norm_num
  refine ⟨hpair, hscore, ?_, ?_, rfl, ?_⟩
  · intro l hl
    rw [hscore]
    have h0 : (0 : ℚ) ≤ (jsIndexOf tbl l : ℚ) := by exact_mod_cast jsIndexOf_nonneg hl
    linarith
  · intro hs l hl
    exact jsIndexOf_pos_of_sentinel hs hl
  · rw [hscore]; norm_num

/-- Witness for C10 at two unrecognized names with tied counts. -/
theorem claim10_witness :
    dominatingLayers sentinelLayers [Entry.mk "Alpha" 2, Entry.mk "Beta" 2] = ["Alpha", "Beta"] ∧
    calculateDominanceScore sentinelLayers
      (dominatingLayers sentinelLayers [Entry.mk "Alpha" 2, Entry.mk "Beta" 2]) = -1 := by
  have h := claim10_unrecognized_codominance sentinelLayers
    (Entry.mk "Alpha" 2) (Entry.mk "Beta" 2) (by decide) (by decide) (by norm_num) (by norm_num)
  refine ⟨?_, h.2.1⟩
  have h1 := h.1
  rw [if_neg (by norm_num)] at h1
  exact h1

/-! ## Lemmas about the layer-count fold of the Class Composition Analyzer -/

lemma foldl_add_eq (l : List ℚ) : ∀ a : ℚ, l.foldl (· + ·) a = a + l.foldl (· + ·) 0 := by
  induction l with
  | nil => intro a; simp
  | cons x l ih =>
    intro a
    simp only [List.foldl_cons]
    rw [ih (a + x), ih (0 + x)]
    ring

lemma sumQ_cons (x : ℚ) (l : List ℚ) : sumQ (x :: l) = x + sumQ l := by
  unfold sumQ
  simp only [List.foldl_cons]
  rw [foldl_add_eq]
  ring

lemma sumQ_append (l1 l2 : List ℚ) : sumQ (l1 ++ l2) = sumQ l1 + sumQ l2 := by
  induction l1 with
  | nil => simp [sumQ]
  | cons x l ih => simp only [List.cons_append, sumQ_cons, ih]; ring

/-- Updating counters in place leaves a list with no matching key unchanged. -/
lemma map_bump_id (k : String) (l : List (String × ℚ))
    (h : ∀ p ∈ l, ¬ p.1 == k) :
    l.map (fun p => if p.1 == k then (p.1, p.2 + 1) else p) = l := by
  induction l with
  | nil => rfl
  | cons p l ih =>
    simp only [List.map_cons]
    rw [if_neg (by simpa using h p (List.mem_cons_self _ _)),
      ih (fun q hq => h q (List.mem_cons_of_mem _ hq))]

/-- With distinct keys and a present key, the in-place increment adds exactly
one to the total. -/
lemma map_bump_sum (k : String) (l : List (String × ℚ))
    (hnd : (l.map Prod.fst).Nodup) (hmem : ∃ p ∈ l, p.1 == k) :
    sumQ ((l.map (fun p => if p.1 == k then (p.1, p.2 + 1) else p)).map Prod.snd)
      = sumQ (l.map Prod.snd) + 1 := by
  induction l with
  | nil => simp at hmem
  | cons p l ih =>
    simp only [List.map_cons, List.nodup_cons] at hnd ⊢
    by_cases hp : p.1 == k
    · rw [if_pos hp]
      have hnone : ∀ q ∈ l, ¬ q.1 == k := by
        intro q hq hqk
        apply hnd.1
        have hq1 : q.1 = k := by simpa using hqk
        have hp1 : p.1 = k := by simpa using hp
        rw [hp1, ← hq1]
        exact List.mem_map_of_mem Prod.fst hq
      rw [map_bump_id k l hnone]
      simp only [sumQ_cons]
      ring
    · rw [if_neg hp]
      have hmem' : ∃ q ∈ l, q.1 == k := by
        rcases hmem with ⟨q, hq, hqk⟩
        rcases List.mem_cons.mp hq with rfl | hq'
        · exact absurd hqk hp
        · exact ⟨q, hq', hqk⟩
      simp only [sumQ_cons, ih hnd.2 hmem']
      ring

/-- One `counts[layer] = (counts[layer] || 0) + 1` step: keys stay distinct,
the total rises by exactly 1, and the record never shrinks. -/
lemma bumpCount_spec (counts : List (String × ℚ)) (k : String)
    (h : (counts.map Prod.fst).Nodup) :
    ((bumpCount counts k).map Prod.fst).Nodup ∧
    sumQ ((bumpCount counts k).map Prod.snd) = sumQ (counts.map Prod.snd) + 1 ∧
    counts.length ≤ (bumpCount counts k).length := by
  unfold bumpCount
  by_cases hany : counts.any (fun p => p.1 == k)
  · rw [if_pos hany]
    refine ⟨?_, ?_, ?_⟩
    · have hkeys : (counts.map (fun p => if p.1 == k then (p.1, p.2 + 1) else p)).map Prod.fst
          = counts.map Prod.fst := by
        rw [List.map_map]
        exact List.map_congr_left (fun p _ => by by_cases hp : p.1 = k <;> simp [hp])
      rw [hkeys]; exact h
    · exact map_bump_sum k counts h (by simpa [List.any_eq_true] using hany)
    · simp
  · rw [if_neg hany]
    have hnk : k ∉ counts.map Prod.fst := by
      intro hk
      rcases List.mem_map.mp hk with ⟨p, hp, hpk⟩
      exact hany (List.any_eq_true.mpr ⟨p, hp, by simp [hpk]⟩)
    refine ⟨?_, ?_, ?_⟩
    · rw [List.map_append, List.nodup_append]
      refine ⟨h, by simp, ?_⟩
      intro a ha hak
      simp only [List.map_cons, List.map_nil, List.mem_singleton] at hak
      subst hak
      exact hnk ha
    · rw [List.map_append, sumQ_append]
      simp [sumQ_cons, sumQ]
    · simp

/-- The whole counting fold: distinct keys, total equal to the number of
methods seen, monotone length. -/
lemma countFold_spec (ks : List String) :
    ∀ counts : List (String × ℚ), (counts.map Prod.fst).Nodup →
      ((ks.foldl bumpCount counts).map Prod.fst).Nodup ∧
      sumQ ((ks.foldl bumpCount counts).map Prod.snd)
        = sumQ (counts.map Prod.snd) + (ks.length : ℚ) ∧
      counts.length ≤ (ks.foldl bumpCount counts).length := by
  induction ks with
  | nil => intro counts h; refine ⟨h, by simp, le_refl _⟩
  | cons k ks ih =>
    intro counts h
    have hb := bumpCount_spec counts k h
    have hrec := ih (bumpCount counts k) hb.1
    simp only [List.foldl_cons, List.length_cons]
    refine ⟨hrec.1, ?_, le_trans hb.2.2 hrec.2.2⟩
    rw [hrec.2.1, hb.2.1]
    push_cast
    ring

/-- C8: a class's composition vector sums (in raw count) to its method count
when it has methods; a method-less class yields exactly the synthetic
`{layer: "Undefined", count: 1, valid: false, hue: 0}` entry; hence every
class vector is non-empty with total count at least 1. -/
theorem claim8_class_vector_invariants (layers : List (Option String))
    (hm : List (String × Int)) (g : MGraph) (cls : MNode) :
    (methodsOf g cls = [] →
      (getBubbleData layers hm g cls).bubbleData = [BEntry.mk "Undefined" 1 false 0]) ∧
    (methodsOf g cls ≠ [] →
      sumQ ((getBubbleData layers hm g cls).bubbleData.map (·.count))
        = ((methodsOf g cls).length : ℚ)) ∧
    (getBubbleData layers hm g cls).bubbleData ≠ [] ∧
    1 ≤ sumQ ((getBubbleData layers hm g cls).bubbleData.map (·.count)) := by
  by_cases hms : methodsOf g cls = []
  · refine ⟨fun _ => ?_, fun hne => absurd hms hne, ?_, ?_⟩
    · simp [getBubbleData, hms]
    · simp [getBubbleData, hms]
    · norm_num [getBubbleData, hms, sumQ]
  · have hlen : 0 < (methodsOf g cls).length := List.length_pos.mpr hms
    have hbd : (getBubbleData layers hm g cls).bubbleData
        = ((methodsOf g cls).foldl (fun counts m => bumpCount counts (layerOf m)) []).map
            (fun p => BEntry.mk p.1 p.2 (includesStr layers p.1) (stringToHue hm p.1)) := by
      simp only [getBubbleData]
      rw [if_pos hlen]
    have hfoldmap : (methodsOf g cls).foldl (fun counts m => bumpCount counts (layerOf m)) []
        = ((methodsOf g cls).map layerOf).foldl bumpCount [] := by
      rw [List.foldl_map]
    have hsum : sumQ ((getBubbleData layers hm g cls).bubbleData.map (·.count))
        = ((methodsOf g cls).length : ℚ) := by
      rw [hbd, hfoldmap, List.map_map]
      have hc : ((fun e : BEntry => e.count) ∘
          (fun p : String × ℚ => BEntry.mk p.1 p.2 (includesStr layers p.1) (stringToHue hm p.1)))
          = Prod.snd := by
        funext p; rfl
      rw [hc, (countFold_spec _ [] (by simp)).2.1]
      simp [sumQ]
    have hne2 : (getBubbleData layers hm g cls).bubbleData ≠ [] := by
      rw [hbd, hfoldmap]
      rcases hms' : methodsOf g cls with _ | ⟨m0, rest⟩
      · exact absurd hms' hms
      · simp only [List.map_cons, List.foldl_cons]
        have h1 : bumpCount [] (layerOf m0) = [(layerOf m0, 1)] := rfl
        rw [h1]
        have hlenf := (countFold_spec (rest.map layerOf) [(layerOf m0, 1)] (by simp)).2.2
        intro hcon
        rw [List.map_eq_nil_iff] at hcon
        rw [hcon] at hlenf
        simp at hlenf
    refine ⟨fun h => absurd h hms, fun _ => hsum, hne2, ?_⟩
    rw [hsum]
    exact_mod_cast hlen

/-- Witness for C8 at a two-method class. -/
theorem claim8_witness :
    sumQ ((getBubbleData sentinelLayers hueMap0
        (MGraph.mk [MNode.mk "c" ["Structure"] [],
          MNode.mk "m1" [] [("layer", PVal.s "Presentation Layer")],
          MNode.mk "m2" [] [("layer", PVal.s "Service Layer")]]
          [MEdge.mk "hasScript" "c" "m1", MEdge.mk "hasScript" "c" "m2"])
        (MNode.mk "c" ["Structure"] [])).bubbleData.map (·.count))
      = ((methodsOf
        (MGraph.mk [MNode.mk "c" ["Structure"] [],
          MNode.mk "m1" [] [("layer", PVal.s "Presentation Layer")],
          MNode.mk "m2" [] [("layer", PVal.s "Service Layer")]]
          [MEdge.mk "hasScript" "c" "m1", MEdge.mk "hasScript" "c" "m2"])
        (MNode.mk "c" ["Structure"] [])).length : ℚ) :=
  (claim8_class_vector_invariants sentinelLayers hueMap0 _ _).2.1 (by decide)

/-! ## Lemmas about the aggregator's graph mutation -/

/-- The in-place update of an existing key leaves other keys' lookups
unchanged. -/
lemma getAssoc_map_update (k k' : String) (v : PVal) (h : k' ≠ k) :
    ∀ l : List (String × PVal),
      getAssoc (l.map (fun p => if p.1 == k then (k, v) else p)) k' = getAssoc l k' := by
  intro l
  induction l with
  | nil => rfl
  | cons p l ih =>
    simp only [List.map_cons]
    by_cases hpk : p.1 = k
    · rw [if_pos (by simp [hpk])]
      show getAssoc ((k, v) :: _) k' = _
      unfold getAssoc
      rw [if_neg (by simpa using (Ne.symm h)), if_neg (by simp [hpk]; exact Ne.symm h)]
      exact ih
    · rw [if_neg (by simpa using hpk)]
      unfold getAssoc
      by_cases hpk' : p.1 = k'
      · rw [if_pos (by simpa using hpk'), if_pos (by simpa using hpk')]
      · rw [if_neg (by simpa using hpk'), if_neg (by simpa using hpk')]
        exact ih

lemma getAssoc_append_single (k k' : String) (v : PVal) (h : k' ≠ k) :
    ∀ l : List (String × PVal), getAssoc (l ++ [(k, v)]) k' = getAssoc l k' := by
  intro l
  induction l with
  | nil =>
    show getAssoc [(k, v)] k' = none
    unfold getAssoc
    rw [if_neg (by simpa using (Ne.symm h))]
    rfl
  | cons p l ih =>
    simp only [List.cons_append]
    unfold getAssoc
    by_cases hpk' : p.1 = k'
    · rw [if_pos (by simpa using hpk'), if_pos (by simpa using hpk')]
    · rw [if_neg (by simpa using hpk'), if_neg (by simpa using hpk')]
      exact ih

/-- A property write touches only its own key. -/
lemma getAssoc_setAssoc_ne (l : List (String × PVal)) (k k' : String) (v : PVal)
    (h : k' ≠ k) : getAssoc (setAssoc l k v) k' = getAssoc l k' := by
  unfold setAssoc
  split
  · exact getAssoc_map_update k k' v h l
  · exact getAssoc_append_single k k' v h l

/-- Re-writing the same key/value is a no-op on an already-written record. -/
lemma setAssoc_idem (l : List (String × PVal)) (k : String) (v : PVal) :
    setAssoc (setAssoc l k v) k v = setAssoc l k v := by
  unfold setAssoc
  by_cases hany : l.any (fun p => p.1 == k)
  · rw [if_pos hany]
    rcases List.any_eq_true.mp hany with ⟨p, hp, hpk⟩
    have hany2 : (l.map (fun p => if p.1 == k then (k, v) else p)).any
        (fun p => p.1 == k) = true := by
      refine List.any_eq_true.mpr ⟨(k, v), ?_, by simp⟩
      exact List.mem_map.mpr ⟨p, hp, by rw [if_pos hpk]⟩
    rw [if_pos hany2, List.map_map]
    apply List.map_congr_left
    intro q _
    by_cases hq : q.1 = k
    · simp [Function.comp, hq]
    · simp [Function.comp, hq]
  · rw [if_neg hany]
    have hnone : ∀ p ∈ l, ¬ p.1 == k := by
      intro p hp hpk
      exact hany (List.any_eq_true.mpr ⟨p, hp, hpk⟩)
    have hany2 : (l ++ [(k, v)]).any (fun p => p.1 == k) = true :=
      List.any_eq_true.mpr ⟨(k, v), List.mem_append_right _ (List.mem_singleton_self _), by simp⟩
    rw [if_pos hany2, List.map_append]
    congr 1
    · calc l.map (fun p => if p.1 == k then (k, v) else p)
          = l.map id := List.map_congr_left (fun p hp => by rw [if_neg (hnone p hp)]; rfl)
        _ = l := List.map_id _
    · simp

lemma setProp_id (n : MNode) (k : String) (v : PVal) : (setProp n k v).id = n.id := rfl

lemma setProp_labels (n : MNode) (k : String) (v : PVal) :
    (setProp n k v).labels = n.labels := rfl

/-- Writing the package back-reference leaves the method-layer lookup
unchanged. -/
lemma layerOf_setProp_package (n : MNode) (v : PVal) :
    layerOf (setProp n "package" v) = layerOf n := by
  unfold layerOf getProp setProp
  rw [getAssoc_setAssoc_ne _ _ _ _ (by decide)]

lemma aggMark_id (g : MGraph) (pkg : MNode) (n : MNode) :
    (aggMark g pkg n).id = n.id := by
  unfold aggMark
  split <;> rfl

lemma aggMark_labels (g : MGraph) (pkg : MNode) (n : MNode) :
    (aggMark g pkg n).labels = n.labels := by
  unfold aggMark
  split <;> rfl

lemma aggMark_layerOf (g : MGraph) (pkg : MNode) (n : MNode) :
    layerOf (aggMark g pkg n) = layerOf n := by
  unfold aggMark
  split
  · exact layerOf_setProp_package _ _
  · rfl

/-- Node lookup in a graph whose nodes were transformed by an id-preserving
function. -/
lemma nodeById_map (g : MGraph) (u : MNode → MNode) (hid : ∀ n, (u n).id = n.id)
    (i : String) :
    nodeById { g with nodes := g.nodes.map u } i = (nodeById g i).map u := by
  unfold nodeById
  dsimp only
  rw [List.find?_map]
  have hp : ((fun n : MNode => n.id == i) ∘ u) = (fun n : MNode => n.id == i) := by
    funext n
    simp [Function.comp, hid]
  rw [hp]

/-- Neighbour queries in a graph whose nodes were transformed by an
id-preserving function. -/
lemma targetsOf_map (g : MGraph) (u : MNode → MNode) (hid : ∀ n, (u n).id = n.id)
    (label nid : String) :
    targetsOf { g with nodes := g.nodes.map u } label nid
      = (targetsOf g label nid).map u := by
  unfold targetsOf
  dsimp only
  rw [List.map_filterMap]
  apply List.filterMap_congr
  intro t _
  exact nodeById_map g u hid t

/-- The classes of the package in the mutated graph are the (id-preservingly)
marked original classes. -/
lemma classesOf_mutate (g : MGraph) (pkg : MNode) :
    classesOf (aggClassMutate g pkg) pkg = (classesOf g pkg).map (aggMark g pkg) := by
  unfold classesOf aggClassMutate
  rw [targetsOf_map g (aggMark g pkg) (aggMark_id g pkg), List.filter_map]
  congr 1
  apply List.filter_congr
  intro n _
  simp [Function.comp, aggMark_labels]

/-- Methods of a class in the mutated graph, with layers untouched. -/
lemma methodsOf_mutate (g : MGraph) (pkg : MNode) (cls : MNode) :
    methodsOf (aggClassMutate g pkg) cls = (methodsOf g cls).map (aggMark g pkg) := by
  unfold methodsOf aggClassMutate
  exact targetsOf_map g (aggMark g pkg) (aggMark_id g pkg) "hasScript" cls.id

/-- `getBubbleData` reads the class argument only through its id. -/
lemma getBubbleData_congr_id (layers : List (Option String)) (hm : List (String × Int))
    (g : MGraph) {n m : MNode} (h : n.id = m.id) :
    getBubbleData layers hm g n = getBubbleData layers hm g m := by
  unfold getBubbleData methodsOf targetsOf
  rw [h]

/-- The counting fold over methods that all carry the same layer key keeps a
single counter. -/
lemma countFold_allsame (k : String) :
    ∀ (ks : List String) (c : ℚ), (∀ x ∈ ks, x = k) →
      ks.foldl bumpCount [(k, c)] = [(k, c + (ks.length : ℚ))] := by
  intro ks
  induction ks with
  | nil => intro c _; simp
  | cons x ks ih =>
    intro c hall
    have hx : x = k := hall x (List.mem_cons_self _ _)
    subst hx
    simp only [List.foldl_cons]
    have hb : bumpCount [(x, c)] x = [(x, c + 1)] := by
      unfold bumpCount
      rw [if_pos (by simp)]
      simp
    rw [hb, ih (c + 1) (fun y hy => hall y (List.mem_cons_of_mem _ hy))]
    simp only [List.length_cons]
    congr 1
    push_cast
    ring_nf

/-- A class whose methods all carry the same layer produces the one-entry raw
vector counting its methods. -/
lemma getBubbleData_allsame (layers : List (Option String)) (hm : List (String × Int))
    (g : MGraph) (cls : MNode) (L : String)
    (hne : methodsOf g cls ≠ [])
    (hall : ∀ m ∈ methodsOf g cls, layerOf m = L) :
    getBubbleData layers hm g cls
      = ClassBubble.mk cls.id
          [BEntry.mk L ((methodsOf g cls).length : ℚ)
            (includesStr layers L) (stringToHue hm L)] := by
  have hlen : 0 < (methodsOf g cls).length := List.length_pos.mpr hne
  simp only [getBubbleData]
  rw [if_pos hlen]
  rcases hms : methodsOf g cls with _ | ⟨m0, rest⟩
  · exact absurd hms hne
  · rw [hms] at hall
    simp only [List.foldl_cons]
    have h1 : bumpCount [] (layerOf m0) = [(layerOf m0, 1)] := rfl
    rw [h1, hall m0 (List.mem_cons_self _ _)]
    have h2 : rest.foldl (fun counts m => bumpCount counts (layerOf m)) [(L, 1)]
        = (rest.map layerOf).foldl bumpCount [(L, 1)] := by
      rw [List.foldl_map]
    have hallmap : ∀ x ∈ rest.map layerOf, x = L := by
      intro x hx
      rcases List.mem_map.mp hx with ⟨m, hmm, rfl⟩
      exact hall m (List.mem_cons_of_mem _ hmm)
    rw [h2, countFold_allsame L (rest.map layerOf) 1 hallmap]
    simp only [List.map_cons, List.map_nil, List.length_cons, List.length_map]
    congr 2
    push_cast
    ring_nf

lemma flatten_map_singleton {α β : Type} (l : List α) (f : α → β) :
    (l.map (fun a => [f a])).flatten = l.map f := by
  induction l with
  | nil => rfl
  | cons x l ih => simp [ih]

lemma dedupFirst_step_const (L : String) :
    ∀ l : List String, (∀ x ∈ l, x = L) →
      l.foldl (fun acc s => if acc.any (fun x => x == s) then acc else acc ++ [s]) [L] = [L] := by
  intro l
  induction l with
  | nil => intro _; rfl
  | cons x l ih =>
    intro hall
    have hx : x = L := hall x (List.mem_cons_self _ _)
    subst hx
    simp only [List.foldl_cons]
    rw [if_pos (by simp)]
    exact ih (fun y hy => hall y (List.mem_cons_of_mem _ hy))

lemma dedupFirst_const (L : String) (l : List String) (hne : l ≠ [])
    (hall : ∀ x ∈ l, x = L) : dedupFirst l = [L] := by
  rcases l with _ | ⟨x, rest⟩
  · exact absurd rfl hne
  · have hx : x = L := hall x (List.mem_cons_self _ _)
    subst hx
    unfold dedupFirst
    simp only [List.foldl_cons]
    rw [show (if ([] : List String).any (fun y => y == x) then ([] : List String)
        else [] ++ [x]) = [x] from rfl]
    exact dedupFirst_step_const x rest (fun y hy => hall y (List.mem_cons_of_mem _ hy))

lemma sumQ_map_const_one {α : Type} (l : List α) :
    sumQ (l.map (fun _ => (1 : ℚ))) = (l.length : ℚ) := by
  induction l with
  | nil => simp [sumQ]
  | cons x l ih =>
    simp only [List.map_cons, sumQ_cons, ih, List.length_cons]
    push_cast
    ring

/-- C6: a package whose classes all have at least one method, every method
assigned the same layer `L`, aggregates to the averaged vector
`[{layer: L, count: 1}]` with `dominant = [L]`. -/
theorem claim6_aggregation_normalization (layers : List (Option String))
    (hm : List (String × Int)) (g : MGraph) (pkg : MNode) (L : String)
    (hcs : classesOf g pkg ≠ [])
    (hmth : ∀ c ∈ classesOf g pkg, methodsOf g c ≠ [])
    (hL : ∀ c ∈ classesOf g pkg, ∀ m ∈ methodsOf g c, layerOf m = L) :
    (getBubbleTeaData layers hm g pkg).1.bubbleTeaData = [Entry.mk L 1] ∧
    (getBubbleTeaData layers hm g pkg).1.dominant = [L] := by
  have hdata : aggData layers hm g pkg = (classesOf g pkg).map (fun c =>
      ClassBubble.mk c.id [BEntry.mk L ((methodsOf g c).length : ℚ)
        (includesStr layers L) (stringToHue hm L)]) := by
    unfold aggData
    apply List.map_congr_left
    intro c hc
    have hmm := methodsOf_mutate g pkg c
    have hne' : methodsOf (aggClassMutate g pkg) c ≠ [] := by
      rw [hmm]
      simpa using hmth c hc
    have hall' : ∀ m ∈ methodsOf (aggClassMutate g pkg) c, layerOf m = L := by
      intro m hmem
      rw [hmm] at hmem
      rcases List.mem_map.mp hmem with ⟨m0, hm0, rfl⟩
      rw [aggMark_layerOf]
      exact hL c hc m0 hm0
    rw [getBubbleData_allsame layers hm (aggClassMutate g pkg) c L hne' hall', hmm]
    simp [List.length_map]
  have hnorm : aggPkgBubbleData layers hm g pkg
      = (classesOf g pkg).map (fun _ => [Entry.mk L 1]) := by
    unfold aggPkgBubbleData
    rw [hdata, List.map_map]
    apply List.map_congr_left
    intro c hc
    show normalizeClassVector (ClassBubble.mk c.id
      [BEntry.mk L ((methodsOf g c).length : ℚ) (includesStr layers L) (stringToHue hm L)])
      = [Entry.mk L 1]
    unfold normalizeClassVector
    have hn : (0 : ℚ) < ((methodsOf g c).length : ℚ) := by
      exact_mod_cast List.length_pos.mpr (hmth c hc)
    have hsum1 : sumQ [((methodsOf g c).length : ℚ)] = ((methodsOf g c).length : ℚ) := by
      simp [sumQ]
    simp only [List.map_cons, List.map_nil]
    rw [hsum1, if_pos hn]
    simp [div_self hn.ne']
  have huniq : aggUniqueLayers layers hm g pkg = [L] := by
    unfold aggUniqueLayers
    rw [hdata, List.map_map]
    have hbs : ((fun cb : ClassBubble => cb.bubbleData) ∘ fun c : MNode =>
        ClassBubble.mk c.id [BEntry.mk L ((methodsOf g c).length : ℚ)
          (includesStr layers L) (stringToHue hm L)])
        = fun c : MNode => [BEntry.mk L ((methodsOf g c).length : ℚ)
          (includesStr layers L) (stringToHue hm L)] := rfl
    rw [hbs, flatten_map_singleton, List.map_map]
    apply dedupFirst_const
    · simpa using hcs
    · intro x hx
      rcases List.mem_map.mp hx with ⟨c, _, rfl⟩
      rfl
  have havg : aggAverageCounts layers hm g pkg = [Entry.mk L 1] := by
    unfold aggAverageCounts
    rw [huniq, hnorm]
    simp only [List.map_cons, List.map_nil]
    congr 1
    unfold averageEntry
    have hflat : ((classesOf g pkg).map (fun _ => [Entry.mk L 1])).flatten
        = (classesOf g pkg).map (fun _ => Entry.mk L 1) := flatten_map_singleton _ _
    dsimp only
    rw [hflat]
    rw [List.filter_eq_self.mpr (by
      intro e he
      rcases List.mem_map.mp he with ⟨c, _, rfl⟩
      simp)]
    rw [List.map_map]
    have hone : ((fun e : Entry => e.count) ∘ fun _ : MNode => Entry.mk L 1)
        = fun _ : MNode => (1 : ℚ) := rfl
    rw [hone, sumQ_map_const_one]
    have hlen : (0 : ℚ) < ((((classesOf g pkg).map
        (fun _ => [Entry.mk L 1])).length : ℕ) : ℚ) := by
      rw [List.length_map]
      exact_mod_cast List.length_pos.mpr hcs
    rw [if_pos hlen]
    rw [List.length_map]
    congr 1
    exact div_self (by exact_mod_cast (List.length_pos.mpr hcs).ne')
  refine ⟨?_, ?_⟩
  · show aggAverageCounts layers hm g pkg = [Entry.mk L 1]
    exact havg
  · show dominatingLayers layers (aggAverageCounts layers hm g pkg) = [L]
    rw [havg]
    rfl

/-- Witness for C6 at a two-class, three-method package. -/
theorem claim6_witness :
    (getBubbleTeaData sentinelLayers hueMap0
      (MGraph.mk
        [MNode.mk "p" ["Container"] [], MNode.mk "c1" ["Structure"] [],
         MNode.mk "c2" ["Structure"] [],
         MNode.mk "m1" [] [("layer", PVal.s "Service Layer")],
         MNode.mk "m2" [] [("layer", PVal.s "Service Layer")],
         MNode.mk "m3" [] [("layer", PVal.s "Service Layer")]]
        [MEdge.mk "contains" "p" "c1", MEdge.mk "contains" "p" "c2",
         MEdge.mk "hasScript" "c1" "m1", MEdge.mk "hasScript" "c1" "m2",
         MEdge.mk "hasScript" "c2" "m3"])
      (MNode.mk "p" ["Container"] [])).1.bubbleTeaData = [Entry.mk "Service Layer" 1] ∧
    (getBubbleTeaData sentinelLayers hueMap0
      (MGraph.mk
        [MNode.mk "p" ["Container"] [], MNode.mk "c1" ["Structure"] [],
         MNode.mk "c2" ["Structure"] [],
         MNode.mk "m1" [] [("layer", PVal.s "Service Layer")],
         MNode.mk "m2" [] [("layer", PVal.s "Service Layer")],
         MNode.mk "m3" [] [("layer", PVal.s "Service Layer")]]
        [MEdge.mk "contains" "p" "c1", MEdge.mk "contains" "p" "c2",
         MEdge.mk "hasScript" "c1" "m1", MEdge.mk "hasScript" "c1" "m2",
         MEdge.mk "hasScript" "c2" "m3"])
      (MNode.mk "p" ["Container"] [])).1.dominant = ["Service Layer"] :=
  claim6_aggregation_normalization sentinelLayers hueMap0 _ _ "Service Layer"
    (by decide) (by decide) (by decide)

/-! ## Idempotence of the aggregator's mutation -/

/-- Re-writing the same key/value is a no-op on an already-marked node. -/
lemma aggMark_idem (g : MGraph) (pkg : MNode) (n : MNode) :
    aggMark g pkg (aggMark g pkg n) = aggMark g pkg n := by
  unfold aggMark
  by_cases hc : (classesOf g pkg).any (fun c => c.id == n.id)
  · rw [if_pos hc, if_pos (by simpa [setProp_id] using hc)]
    unfold setProp
    simp [setAssoc_idem]
  · rw [if_neg hc, if_neg hc]

/-- Marking relative to the mutated graph is the same marking function
(membership is by id, and ids are preserved). -/
lemma aggMark_mutate (g : MGraph) (pkg : MNode) :
    aggMark (aggClassMutate g pkg) pkg = aggMark g pkg := by
  funext n
  unfold aggMark
  rw [classesOf_mutate, List.any_map]
  have hp : ((fun c : MNode => c.id == n.id) ∘ aggMark g pkg)
      = fun c : MNode => c.id == n.id := by
    funext c
    simp [Function.comp, aggMark_id]
  rw [hp]

/-- Running the step-2 mutation a second time leaves the graph unchanged. -/
lemma aggClassMutate_idem (g : MGraph) (pkg : MNode) :
    aggClassMutate (aggClassMutate g pkg) pkg = aggClassMutate g pkg := by
  have hnodes : (aggClassMutate (aggClassMutate g pkg) pkg).nodes
      = (aggClassMutate g pkg).nodes := by
    show ((aggClassMutate g pkg).nodes).map (aggMark (aggClassMutate g pkg) pkg)
        = (aggClassMutate g pkg).nodes
    rw [aggMark_mutate,
      show (aggClassMutate g pkg).nodes = g.nodes.map (aggMark g pkg) from rfl,
      List.map_map]
    apply List.map_congr_left
    intro n _
    exact aggMark_idem g pkg n
  have hext : ∀ a b : MGraph, a.nodes = b.nodes → a.edges = b.edges → a = b := by
    intro a b h1 h2
    cases a; cases b
    cases h1; cases h2
    rfl
  exact hext _ _ hnodes rfl

/-- The per-class analysis results are unchanged by a second aggregation
pass. -/
lemma aggData_mutate (layers : List (Option String)) (hm : List (String × Int))
    (g : MGraph) (pkg : MNode) :
    aggData layers hm (aggClassMutate g pkg) pkg = aggData layers hm g pkg := by
  unfold aggData
  rw [classesOf_mutate, aggClassMutate_idem, List.map_map]
  apply List.map_congr_left
  intro c _
  exact getBubbleData_congr_id layers hm _ (aggMark_id g pkg c)

/-- C9: the aggregator's only mutation of the analysis data is the
`property("package", pkg)` back-reference written on the package's class
nodes — edges are untouched, the node update is exactly the per-node marking
function, a marking write changes no key other than `"package"` and no id or
label, unmarked nodes are untouched — and the whole aggregation is
idempotent: a second run on the mutated graph returns the same data and
leaves the graph unchanged. -/
theorem claim9_mutation_frame (layers : List (Option String)) (hm : List (String × Int))
    (g : MGraph) (pkg : MNode) :
    ((getBubbleTeaData layers hm g pkg).2.edges = g.edges) ∧
    ((getBubbleTeaData layers hm g pkg).2.nodes = g.nodes.map (aggMark g pkg)) ∧
    (∀ (n : MNode) (k : String), k ≠ "package" →
      getProp (setProp n "package" (PVal.ref pkg.id)) k = getProp n k) ∧
    (∀ n : MNode, (setProp n "package" (PVal.ref pkg.id)).id = n.id ∧
      (setProp n "package" (PVal.ref pkg.id)).labels = n.labels) ∧
    (∀ n : MNode, ¬ (classesOf g pkg).any (fun c => c.id == n.id) → aggMark g pkg n = n) ∧
    getBubbleTeaData layers hm (getBubbleTeaData layers hm g pkg).2 pkg
      = ((getBubbleTeaData layers hm g pkg).1, (getBubbleTeaData layers hm g pkg).2) := by
  refine ⟨rfl, rfl, ?_, fun n => ⟨rfl, rfl⟩, ?_, ?_⟩
  · intro n k hk
    exact getAssoc_setAssoc_ne _ _ _ _ hk
  · intro n hc
    unfold aggMark
    rw [if_neg hc]
  · show getBubbleTeaData layers hm (aggClassMutate g pkg) pkg = _
    have hdata := aggData_mutate layers hm g pkg
    have havg : aggAverageCounts layers hm (aggClassMutate g pkg) pkg
        = aggAverageCounts layers hm g pkg := by
      unfold aggAverageCounts aggUniqueLayers aggPkgBubbleData
      rw [hdata]
    unfold getBubbleTeaData
    rw [aggClassMutate_idem, hdata, havg]

/-- Witness for C9: the frame and idempotence conclusions at a concrete
one-package graph. -/
theorem claim9_witness :
    ((getBubbleTeaData sentinelLayers hueMap0
        (MGraph.mk [MNode.mk "p" ["Container"] [], MNode.mk "c1" ["Structure"] []]
          [MEdge.mk "contains" "p" "c1"])
        (MNode.mk "p" ["Container"] [])).2.edges
      = (MGraph.mk [MNode.mk "p" ["Container"] [], MNode.mk "c1" ["Structure"] []]
          [MEdge.mk "contains" "p" "c1"]).edges) ∧
    getBubbleTeaData sentinelLayers hueMap0
        (getBubbleTeaData sentinelLayers hueMap0
          (MGraph.mk [MNode.mk "p" ["Container"] [], MNode.mk "c1" ["Structure"] []]
            [MEdge.mk "contains" "p" "c1"])
          (MNode.mk "p" ["Container"] [])).2
        (MNode.mk "p" ["Container"] [])
      = ((getBubbleTeaData sentinelLayers hueMap0
          (MGraph.mk [MNode.mk "p" ["Container"] [], MNode.mk "c1" ["Structure"] []]
            [MEdge.mk "contains" "p" "c1"])
          (MNode.mk "p" ["Container"] [])).1,
         (getBubbleTeaData sentinelLayers hueMap0
          (MGraph.mk [MNode.mk "p" ["Container"] [], MNode.mk "c1" ["Structure"] []]
            [MEdge.mk "contains" "p" "c1"])
          (MNode.mk "p" ["Container"] [])).2) :=
  ⟨(claim9_mutation_frame sentinelLayers hueMap0 _ _).1,
   (claim9_mutation_frame sentinelLayers hueMap0 _ _).2.2.2.2.2⟩

/-! ## Lemmas about the Layer Bucketing -/

/-- Key membership matches the `key in layers` test. -/
lemma any_fst_iff (B : List (String × List BTData)) (k : String) :
    (B.any (fun p => p.1 == k)) = true ↔ k ∈ B.map Prod.fst := by
  simp only [List.any_eq_true, List.mem_map, beq_iff_eq]

/-- Pushing into a bucket never changes the key set. -/
lemma pushBucket_keys (B : List (String × List BTData)) (k : String) (x : BTData) :
    (pushBucket B k x).map Prod.fst = B.map Prod.fst := by
  unfold pushBucket
  rw [List.map_map]
  apply List.map_congr_left
  intro p _
  by_cases hp : p.1 = k <;> simp [hp]

/-- Pushing at an absent key is a no-op (never reached by the source, where
the tested key or `''` is always present). -/
lemma pushBucket_not_mem {B : List (String × List BTData)} {k : String} (x : BTData)
    (h : k ∉ B.map Prod.fst) : pushBucket B k x = B := by
  unfold pushBucket
  calc B.map (fun p => if p.1 == k then (p.1, p.2 ++ [x]) else p)
      = B.map id := by
        apply List.map_congr_left
        intro p hp
        rw [if_neg (by
          simp only [beq_iff_eq]
          intro hpk
          exact h (hpk ▸ List.mem_map_of_mem Prod.fst hp))]
        rfl
    _ = B := List.map_id _

/-- Pushing at a present key grows the union of bucket contents by exactly
one element (distinct keys). -/
lemma pushBucket_sizes (k : String) (x : BTData) :
    ∀ B : List (String × List BTData), (B.map Prod.fst).Nodup → k ∈ B.map Prod.fst →
      ((pushBucket B k x).map (fun pr => pr.2.length)).sum
        = ((B.map (fun pr => pr.2.length)).sum) + 1 := by
  intro B
  induction B with
  | nil => intro _ hk; simp at hk
  | cons p B ih =>
    intro hnd hk
    simp only [List.map_cons, List.nodup_cons] at hnd
    by_cases hp : p.1 = k
    · have hknotin : k ∉ B.map Prod.fst := hp ▸ hnd.1
      unfold pushBucket
      simp only [List.map_cons]
      rw [if_pos (by simp [hp])]
      have hrest : B.map (fun q => if q.1 == k then (q.1, q.2 ++ [x]) else q) = B := by
        have := pushBucket_not_mem (B := B) (k := k) x hknotin
        exact this
      rw [hrest]
      simp only [List.map_cons, List.sum_cons, List.length_append, List.length_cons,
        List.length_nil]
      omega
    · unfold pushBucket
      simp only [List.map_cons]
      rw [if_neg (by simpa using hp)]
      have hk' : k ∈ B.map Prod.fst := by
        rcases List.mem_cons.mp hk with h' | h'
        · exact absurd h'.symm hp
        · exact h'
      have := ih hnd.2 hk'
      unfold pushBucket at this
      simp only [List.map_cons, List.sum_cons]
      omega

/-- `layers[key] = []` assignments only add the assigned key. -/
lemma setBucket_keys_mem (B : List (String × List BTData)) (k : String)
    (v : List BTData) (k' : String) :
    k' ∈ (setBucket B k v).map Prod.fst ↔ k' ∈ B.map Prod.fst ∨ k' = k := by
  unfold setBucket
  split
  · next hany =>
    have hkeys : (B.map (fun p => if p.1 == k then (k, v) else p)).map Prod.fst
        = B.map Prod.fst := by
      rw [List.map_map]
      apply List.map_congr_left
      intro p _
      by_cases hp : p.1 = k <;> simp [hp]
    rw [hkeys]
    have hkmem : k ∈ B.map Prod.fst := (any_fst_iff B k).mp hany
    constructor
    · exact Or.inl
    · rintro (h | rfl)
      · exact h
      · exact hkmem
  · simp [List.mem_append]

/-- `layers[key] = []` keeps the keys distinct. -/
lemma setBucket_keys_nodup (B : List (String × List BTData)) (k : String)
    (v : List BTData) (h : (B.map Prod.fst).Nodup) :
    ((setBucket B k v).map Prod.fst).Nodup := by
  unfold setBucket
  split
  · next hany =>
    have hkeys : (B.map (fun p => if p.1 == k then (k, v) else p)).map Prod.fst
        = B.map Prod.fst := by
      rw [List.map_map]
      apply List.map_congr_left
      intro p _
      by_cases hp : p.1 = k <;> simp [hp]
    rw [hkeys]; exact h
  · next hany =>
    rw [List.map_append, List.nodup_append]
    refine ⟨h, by simp, ?_⟩
    intro a ha hak
    simp only [List.map_cons, List.map_nil, List.mem_singleton] at hak
    subst hak
    exact (by simpa using hany : ¬ _) ((any_fst_iff B a).mpr ha)

/-- All buckets created by `layers[key] = []` assignments start empty. -/
lemma setBucket_sizes_zero (B : List (String × List BTData)) (k : String)
    (h : ((B.map (fun pr => pr.2.length)).sum) = 0) :
    (((setBucket B k []).map (fun pr => pr.2.length)).sum) = 0 := by
  unfold setBucket
  split
  · rw [List.map_map, List.sum_eq_zero_iff]
    intro x hx
    rcases List.mem_map.mp hx with ⟨p, hp, rfl⟩
    by_cases hpk : p.1 = k
    · simp [hpk]
    · simp only [Function.comp]
      rw [if_neg (by simpa using hpk)]
      exact List.sum_eq_zero_iff.mp h _ (List.mem_map_of_mem _ hp)
  · rw [List.map_append, List.sum_append, h]
    simp

/-- Key membership after the whole bucket-map initialisation. -/
lemma foldl_setBucket_keys_mem (k' : String) :
    ∀ (lo : List (List (Option String))) (B : List (String × List BTData)),
      k' ∈ ((lo.foldl (fun acc l => setBucket acc (joinKeyO l) []) B).map Prod.fst) ↔
        k' ∈ B.map Prod.fst ∨ k' ∈ lo.map joinKeyO := by
  intro lo
  induction lo with
  | nil => intro B; simp
  | cons l lo ih =>
    intro B
    simp only [List.foldl_cons, ih, setBucket_keys_mem, List.map_cons, List.mem_cons]
    tauto

lemma foldl_setBucket_keys_nodup :
    ∀ (lo : List (List (Option String))) (B : List (String × List BTData)),
      (B.map Prod.fst).Nodup →
      ((lo.foldl (fun acc l => setBucket acc (joinKeyO l) []) B).map Prod.fst).Nodup := by
  intro lo
  induction lo with
  | nil => intro B h; exact h
  | cons l lo ih =>
    intro B h
    exact ih _ (setBucket_keys_nodup _ _ _ h)

lemma foldl_setBucket_sizes_zero :
    ∀ (lo : List (List (Option String))) (B : List (String × List BTData)),
      ((B.map (fun pr => pr.2.length)).sum) = 0 →
      (((lo.foldl (fun acc l => setBucket acc (joinKeyO l) []) B).map
        (fun pr => pr.2.length)).sum) = 0 := by
  intro lo
  induction lo with
  | nil => intro B h; exact h
  | cons l lo ih =>
    intro B h
    exact ih _ (setBucket_sizes_zero _ _ h)

/-- Each categorisation step keeps the key set. -/
lemma bucketStep_keys (tbl : List (Option String)) (B : List (String × List BTData))
    (btd : BTData) : (bucketStep tbl B btd).map Prod.fst = B.map Prod.fst := by
  unfold bucketStep
  dsimp only
  split
  · exact pushBucket_keys _ _ _
  · exact pushBucket_keys _ _ _

/-- Each categorisation step places its package in exactly one bucket. -/
lemma bucketStep_sizes (tbl : List (Option String)) (B : List (String × List BTData))
    (btd : BTData) (hnd : (B.map Prod.fst).Nodup) (hempty : "" ∈ B.map Prod.fst) :
    ((bucketStep tbl B btd).map (fun pr => pr.2.length)).sum
      = ((B.map (fun pr => pr.2.length)).sum) + 1 := by
  unfold bucketStep
  dsimp only
  split
  · next hany =>
    exact pushBucket_sizes _ _ B hnd ((any_fst_iff _ _).mp hany)
  · exact pushBucket_sizes _ _ B hnd hempty

lemma bucketFold_keys (tbl : List (Option String)) :
    ∀ (arr : List BTData) (B : List (String × List BTData)),
      ((arr.foldl (bucketStep tbl) B).map Prod.fst) = B.map Prod.fst := by
  intro arr
  induction arr with
  | nil => intro B; rfl
  | cons q arr ih =>
    intro B
    simp only [List.foldl_cons, ih, bucketStep_keys]

lemma bucketFold_sizes (tbl : List (Option String)) :
    ∀ (arr : List BTData) (B : List (String × List BTData)),
      (B.map Prod.fst).Nodup → "" ∈ B.map Prod.fst →
      ((arr.foldl (bucketStep tbl) B).map (fun pr => pr.2.length)).sum
        = ((B.map (fun pr => pr.2.length)).sum) + arr.length := by
  intro arr
  induction arr with
  | nil => intro B _ _; simp
  | cons q arr ih =>
    intro B hnd hempty
    simp only [List.foldl_cons, List.length_cons]
    rw [ih _ (by rw [bucketStep_keys]; exact hnd) (by rw [bucketStep_keys]; exact hempty),
      bucketStep_sizes tbl B q hnd hempty]
    omega

/-- Pushing at a present key actually lands the element in that bucket. -/
lemma pushBucket_mem_self (k : String) (x : BTData) :
    ∀ B : List (String × List BTData), k ∈ B.map Prod.fst →
      ∃ pr ∈ pushBucket B k x, pr.1 = k ∧ x ∈ pr.2 := by
  intro B
  induction B with
  | nil => intro hk; simp at hk
  | cons p B ih =>
    intro hk
    by_cases hp : p.1 = k
    · refine ⟨(p.1, p.2 ++ [x]), ?_, hp, by simp⟩
      unfold pushBucket
      simp only [List.map_cons]
      rw [if_pos (by simpa using hp)]
      exact List.mem_cons_self _ _
    · have hk' : k ∈ B.map Prod.fst := by
        rcases List.mem_cons.mp hk with h | h
        · exact absurd h.symm hp
        · exact h
      rcases ih hk' with ⟨pr, hpr, h1, h2⟩
      refine ⟨pr, ?_, h1, h2⟩
      unfold pushBucket
      simp only [List.map_cons]
      exact List.mem_cons_of_mem _ hpr

/-- Bucket contents are never removed by later pushes. -/
lemma pushBucket_mem_mono (k' k : String) (x y : BTData)
    (B : List (String × List BTData))
    (h : ∃ pr ∈ B, pr.1 = k' ∧ x ∈ pr.2) :
    ∃ pr ∈ pushBucket B k y, pr.1 = k' ∧ x ∈ pr.2 := by
  rcases h with ⟨pr, hpr, h1, h2⟩
  unfold pushBucket
  by_cases hp : pr.1 = k
  · exact ⟨(pr.1, pr.2 ++ [y]),
      List.mem_map.mpr ⟨pr, hpr, by rw [if_pos (by simpa using hp)]⟩, h1, by simp [h2]⟩
  · exact ⟨pr, List.mem_map.mpr ⟨pr, hpr, by rw [if_neg (by simpa using hp)]⟩, h1, h2⟩

lemma bucketStep_mem_mono (tbl : List (Option String)) (B : List (String × List BTData))
    (q : BTData) (k' : String) (x : BTData)
    (h : ∃ pr ∈ B, pr.1 = k' ∧ x ∈ pr.2) :
    ∃ pr ∈ bucketStep tbl B q, pr.1 = k' ∧ x ∈ pr.2 := by
  unfold bucketStep
  dsimp only
  split
  · exact pushBucket_mem_mono _ _ _ _ _ h
  · exact pushBucket_mem_mono _ _ _ _ _ h

lemma bucketFold_mem_mono (tbl : List (Option String)) :
    ∀ (arr : List BTData) (B : List (String × List BTData)) (k' : String) (x : BTData),
      (∃ pr ∈ B, pr.1 = k' ∧ x ∈ pr.2) →
      ∃ pr ∈ arr.foldl (bucketStep tbl) B, pr.1 = k' ∧ x ∈ pr.2 := by
  intro arr
  induction arr with
  | nil => intro B k' x h; exact h
  | cons q arr ih =>
    intro B k' x h
    simp only [List.foldl_cons]
    exact ih _ _ _ (bucketStep_mem_mono tbl B q k' x h)

/-- Every package of the input ends up either in the bucket matching its
sorted dominant key (with its dominant sorted in place) or, when no bucket
matches, in the cross-cutting `''` bucket with its dominant forced to `[]`. -/
lemma bucketFold_place (tbl : List (Option String)) :
    ∀ (arr : List BTData) (B : List (String × List BTData)) (p : BTData), p ∈ arr →
      "" ∈ B.map Prod.fst →
      ((joinKey (sortDominant tbl p.dominant) ∈ B.map Prod.fst →
        ∃ pr ∈ arr.foldl (bucketStep tbl) B,
          pr.1 = joinKey (sortDominant tbl p.dominant) ∧
          { p with dominant := sortDominant tbl p.dominant } ∈ pr.2) ∧
      (joinKey (sortDominant tbl p.dominant) ∉ B.map Prod.fst →
        ∃ pr ∈ arr.foldl (bucketStep tbl) B, pr.1 = "" ∧
          { p with dominant := [] } ∈ pr.2)) := by
  intro arr
  induction arr with
  | nil => intro B p hp _; simp at hp
  | cons q arr ih =>
    intro B p hp hempty
    simp only [List.foldl_cons]
    rcases List.mem_cons.mp hp with rfl | hp'
    · constructor
      · intro hkey
        apply bucketFold_mem_mono
        unfold bucketStep
        dsimp only
        rw [if_pos ((any_fst_iff _ _).mpr hkey)]
        exact pushBucket_mem_self _ _ B hkey
      · intro hkey
        apply bucketFold_mem_mono
        unfold bucketStep
        dsimp only
        rw [if_neg (fun hc => hkey ((any_fst_iff _ _).mp hc))]
        exact pushBucket_mem_self _ _ B hempty
    · have hkeys := bucketStep_keys tbl B q
      have hrec := ih (bucketStep tbl B q) p hp' (by rw [hkeys]; exact hempty)
      constructor
      · intro hkey
        exact hrec.1 (by rw [hkeys]; exact hkey)
      · intro hkey
        exact hrec.2 (by rw [hkeys]; exact hkey)

lemma flatMap_congr {α β : Type} {f g : α → List β} :
    ∀ {l : List α}, (∀ a ∈ l, f a = g a) → l.flatMap f = l.flatMap g := by
  intro l
  induction l with
  | nil => intro _; rfl
  | cons x l ih =>
    intro h
    simp only [List.flatMap_cons, h x (List.mem_cons_self _ _),
      ih (fun a ha => h a (List.mem_cons_of_mem _ ha))]

lemma getD_map_some (reals : List String) (i : Nat) (hi : i < reals.length) :
    (reals.map some).getD i none = some (reals.getD i "") := by
  rw [List.getD_eq_getElem?_getD, List.getD_eq_getElem?_getD, List.getElem?_map]
  rcases hx : reals[i]? with _ | v
  · rw [List.getElem?_eq_none_iff] at hx
    omega
  · simp

/-- The joined bucket keys of `generateLayerOrder` over a real-name table. -/
lemma generateLayerOrder_map_join (reals : List String) :
    (generateLayerOrder (reals.map some)).map joinKeyO
      = ((List.range (reals.length - 1)).flatMap (fun i =>
          [reals.getD i "", reals.getD i "" ++ ", " ++ reals.getD (i + 1) ""]))
        ++ [reals.getD (reals.length - 1) ""] ++ [""] := by
  unfold generateLayerOrder
  rw [List.map_append, List.map_append]
  congr 1
  · congr 1
    · rw [List.map_flatMap, List.length_map]
      apply flatMap_congr
      intro i hi
      rw [List.mem_range] at hi
      have hi1 : i < reals.length := by omega
      have hi2 : i + 1 < reals.length := by omega
      simp only [List.map_cons, List.map_nil]
      rw [getD_map_some reals i hi1, getD_map_some reals (i + 1) hi2]
      rfl
    · simp only [List.map_cons, List.map_nil]
      congr 1
      rcases reals with _ | ⟨x, rest⟩
      · rfl
      · rw [List.length_map,
          getD_map_some (x :: rest) ((x :: rest).length - 1)
            (by simp only [List.length_cons]; omega)]
        rfl

/-- The enumerated bucket keys are exactly: every single real layer, every
adjacent consecutive pair, and the empty cross-cutting key. -/
lemma mem_layerOrder_keys (reals : List String) (hne : reals ≠ []) (k : String) :
    k ∈ (generateLayerOrder (reals.map some)).map joinKeyO ↔
      (k ∈ reals ∨
       (∃ i, i + 1 < reals.length ∧ k = reals.getD i "" ++ ", " ++ reals.getD (i + 1) "") ∨
       k = "") := by
  have hgetDmem : ∀ i, i < reals.length → reals.getD i "" ∈ reals := by
    intro i hi
    rw [List.getD_eq_getElem?_getD, List.getElem?_eq_getElem hi]
    exact List.getElem_mem hi
  rw [generateLayerOrder_map_join]
  constructor
  · intro hmem
    rcases List.mem_append.mp hmem with h1 | h3
    · rcases List.mem_append.mp h1 with h1 | h2
      · rcases List.mem_flatMap.mp h1 with ⟨i, hi, hk⟩
        rw [List.mem_range] at hi
        rcases List.mem_cons.mp hk with rfl | hk2
        · exact Or.inl (hgetDmem i (by omega))
        · rcases List.mem_cons.mp hk2 with rfl | hk3
          · exact Or.inr (Or.inl ⟨i, by omega, rfl⟩)
          · simp at hk3
      · rw [List.mem_singleton] at h2
        subst h2
        exact Or.inl (hgetDmem _ (by have := List.length_pos.mpr hne; omega))
    · rw [List.mem_singleton] at h3
      exact Or.inr (Or.inr h3)
  · intro hmem
    rcases hmem with h | ⟨i, hi, rfl⟩ | rfl
    · rcases List.mem_iff_getElem.mp h with ⟨j, hj, hjk⟩
      have hjd : reals.getD j "" = k := by
        rw [List.getD_eq_getElem?_getD, List.getElem?_eq_getElem hj, hjk]
        rfl
      by_cases hjlast : j + 1 < reals.length
      · refine List.mem_append.mpr (Or.inl (List.mem_append.mpr (Or.inl ?_)))
        exact List.mem_flatMap.mpr ⟨j, List.mem_range.mpr (by omega),
          by rw [hjd]; exact List.mem_cons_self _ _⟩
      · have hj' : j = reals.length - 1 := by omega
        refine List.mem_append.mpr (Or.inl (List.mem_append.mpr (Or.inr ?_)))
        rw [List.mem_singleton, ← hjd, hj']
    · refine List.mem_append.mpr (Or.inl (List.mem_append.mpr (Or.inl ?_)))
      exact List.mem_flatMap.mpr ⟨i, List.mem_range.mpr (by omega),
        List.mem_cons_of_mem _ (List.mem_cons_self _ _)⟩
    · exact List.mem_append.mpr (Or.inr (List.mem_singleton_self _))

/-- C7: with a sentinel-prefixed LayerTable of real names, bucketing places
every input package in exactly one bucket (the sizes sum to the input
length); the bucket keys are exactly the single real layers, the adjacent
consecutive pairs, and the cross-cutting `''` key; and each package lands in
the bucket matching its sorted dominant key, or — when no key matches — in
the cross-cutting bucket with its dominant forced to `[]`. -/
theorem claim7_bucketing_complete (reals : List String) (hne : reals ≠ [])
    (arr : List BTData) :
    ((((bucketPackagesByLayer (Option.none :: reals.map some) arr).map
        (fun pr => pr.2.length)).sum) = arr.length) ∧
    (∀ k, k ∈ (bucketPackagesByLayer (Option.none :: reals.map some) arr).map Prod.fst ↔
      (k ∈ reals ∨
       (∃ i, i + 1 < reals.length ∧ k = reals.getD i "" ++ ", " ++ reals.getD (i + 1) "") ∨
       k = "")) ∧
    (∀ p ∈ arr,
      (joinKey (sortDominant (Option.none :: reals.map some) p.dominant)
          ∈ (bucketPackagesByLayer (Option.none :: reals.map some) arr).map Prod.fst →
        ∃ pr ∈ bucketPackagesByLayer (Option.none :: reals.map some) arr,
          pr.1 = joinKey (sortDominant (Option.none :: reals.map some) p.dominant) ∧
          { p with dominant := sortDominant (Option.none :: reals.map some) p.dominant } ∈ pr.2) ∧
      (joinKey (sortDominant (Option.none :: reals.map some) p.dominant)
          ∉ (bucketPackagesByLayer (Option.none :: reals.map some) arr).map Prod.fst →
        ∃ pr ∈ bucketPackagesByLayer (Option.none :: reals.map some) arr,
          pr.1 = "" ∧ { p with dominant := [] } ∈ pr.2)) := by
  have hdrop : ((Option.none :: reals.map some) : List (Option String)).drop 1
      = reals.map some := rfl
  have hinitkeys : ∀ k, k ∈ (bucketInit (Option.none :: reals.map some)).map Prod.fst ↔
      k ∈ (generateLayerOrder (reals.map some)).map joinKeyO := by
    intro k
    unfold bucketInit
    rw [hdrop, foldl_setBucket_keys_mem]
    simp
  have hempty : "" ∈ (bucketInit (Option.none :: reals.map some)).map Prod.fst := by
    rw [hinitkeys, mem_layerOrder_keys reals hne]
    exact Or.inr (Or.inr rfl)
  have hnodup : ((bucketInit (Option.none :: reals.map some)).map Prod.fst).Nodup := by
    unfold bucketInit
    exact foldl_setBucket_keys_nodup _ [] (by simp)
  have hzero : (((bucketInit (Option.none :: reals.map some)).map
      (fun pr => pr.2.length)).sum) = 0 := by
    unfold bucketInit
    exact foldl_setBucket_sizes_zero _ [] (by simp)
  have hfoldkeys : (bucketPackagesByLayer (Option.none :: reals.map some) arr).map Prod.fst
      = (bucketInit (Option.none :: reals.map some)).map Prod.fst := by
    unfold bucketPackagesByLayer
    exact bucketFold_keys _ arr _
  refine ⟨?_, ?_, ?_⟩
  · unfold bucketPackagesByLayer
    rw [bucketFold_sizes _ arr _ hnodup hempty, hzero]
    omega
  · intro k
    rw [hfoldkeys, hinitkeys, mem_layerOrder_keys reals hne]
  · intro p hp
    have hplace := bucketFold_place (Option.none :: reals.map some) arr
      (bucketInit (Option.none :: reals.map some)) p hp hempty
    constructor
    · intro hkey
      exact hplace.1 (by rw [hfoldkeys] at hkey; exact hkey)
    · intro hkey
      exact hplace.2 (by rw [hfoldkeys] at hkey; exact hkey)

/-- Witness for C7: one package with an unmatched dominant pair still lands
in exactly one bucket. -/
theorem claim7_witness :
    ((((bucketPackagesByLayer
        ((Option.none :: (["Presentation Layer", "Service Layer"] : List String).map some))
        [BTData.mk "p" ["X", "Y"] [] []]).map (fun pr => pr.2.length)).sum)
      = ([BTData.mk "p" ["X", "Y"] [] []] : List BTData).length) :=
  (claim7_bucketing_complete ["Presentation Layer", "Service Layer"] (by decide)
    [BTData.mk "p" ["X", "Y"] [] []]).1

/-! ## Lemmas about `bfsSort`: the loop always terminates within its fuel,
and the only error is the missing root -/

/-- All node ids occurring in the edge list. -/
def idsFinset (edgeList : List GEdge) : Finset String :=
  ((edgeList.map (fun e => e.source.id)) ++ (edgeList.map (fun e => e.target.id))).toFinset

/-- The ids of the visited set. -/
def visFinset (visited : List GNode) : Finset String :=
  (visited.map GNode.id).toFinset

/-- The inner `forEach` of one BFS iteration appends the same block of
newly-discovered targets to the queue and to `visited`; the block has
pairwise-distinct ids, all of them edge targets not yet visited. -/
lemma bfsInner_fold_spec (cur : GNode) :
    ∀ (es : List GEdge) (s : List GNode × List GNode), ∃ t : List GNode,
      es.foldl (fun s e =>
        if e.source.id == cur.id && !(s.2.any (fun v => v.id == e.target.id)) then
          (s.1 ++ [e.target], s.2 ++ [e.target])
        else s) s
        = (s.1 ++ t, s.2 ++ t) ∧
      (∀ n ∈ t, ∃ e ∈ es, n = e.target) ∧
      (t.map GNode.id).Nodup ∧
      (∀ n ∈ t, n.id ∉ s.2.map GNode.id) := by
  intro es
  induction es with
  | nil =>
    intro s
    exact ⟨[], by simp, by simp, by simp, by simp⟩
  | cons e es ih =>
    intro s
    simp only [List.foldl_cons]
    by_cases hc : (e.source.id == cur.id && !(s.2.any (fun v => v.id == e.target.id))) = true
    · rw [if_pos hc]
      obtain ⟨t', h1, h2, h3, h4⟩ := ih (s.1 ++ [e.target], s.2 ++ [e.target])
      have hc' : e.source.id = cur.id ∧ (s.2.any fun v => v.id == e.target.id) = false := by
        simpa [Bool.not_eq_true'] using hc
      have hnotvis : e.target.id ∉ s.2.map GNode.id := by
        intro hmem
        rcases List.mem_map.mp hmem with ⟨v, hv, hvid⟩
        have := List.any_eq_false.mp hc'.2 v hv
        simp [hvid] at this
      refine ⟨e.target :: t', ?_, ?_, ?_, ?_⟩
      · rw [h1]
        simp
      · intro n hn
        rcases List.mem_cons.mp hn with rfl | hn'
        · exact ⟨e, List.mem_cons_self _ _, rfl⟩
        · rcases h2 n hn' with ⟨e', he', rfl⟩
          exact ⟨e', List.mem_cons_of_mem _ he', rfl⟩
      · simp only [List.map_cons, List.nodup_cons]
        refine ⟨?_, h3⟩
        intro hmem
        rcases List.mem_map.mp hmem with ⟨n, hn, hnid⟩
        have := h4 n hn
        rw [List.map_append] at this
        exact this (List.mem_append_right _ (by simp [hnid]))
      · intro n hn
        rcases List.mem_cons.mp hn with rfl | hn'
        · exact hnotvis
        · intro hmem
          exact h4 n hn' (by rw [List.map_append]; exact List.mem_append_left _ hmem)
    · rw [if_neg hc]
      obtain ⟨t, h1, h2, h3, h4⟩ := ih s
      refine ⟨t, h1, ?_, h3, h4⟩
      intro n hn
      rcases h2 n hn with ⟨e', he', rfl⟩
      exact ⟨e', List.mem_cons_of_mem _ he', rfl⟩

/-- Within sufficient fuel the BFS loop always returns a result. -/
lemma bfsLoop_isSome (edgeList : List GEdge) :
    ∀ (fuel : Nat) (queue visited result : List GNode),
      queue.length + 2 * ((idsFinset edgeList) \ visFinset visited).card ≤ fuel →
      (bfsLoop edgeList fuel queue visited result).isSome := by
  intro fuel
  induction fuel with
  | zero =>
    intro queue visited result h
    have hq : queue.length = 0 := by omega
    rw [List.length_eq_zero] at hq
    subst hq
    simp [bfsLoop]
  | succ n ih =>
    intro queue visited result h
    rcases queue with _ | ⟨cur, rest⟩
    · simp [bfsLoop]
    · obtain ⟨t, hfold, htgt, hnd, hdisj⟩ := bfsInner_fold_spec cur edgeList (rest, visited)
      have hstep : bfsLoop edgeList (n + 1) (cur :: rest) visited result
          = bfsLoop edgeList n (bfsInner edgeList cur (rest, visited)).1
              (bfsInner edgeList cur (rest, visited)).2 (result ++ [cur]) := rfl
      rw [hstep, show bfsInner edgeList cur (rest, visited)
        = (rest ++ t, visited ++ t) from hfold]
      apply ih
      have htsub : (t.map GNode.id).toFinset ⊆ (idsFinset edgeList) \ (visFinset visited) := by
        intro a ha
        rw [List.mem_toFinset] at ha
        rcases List.mem_map.mp ha with ⟨nn, hnn, rfl⟩
        rw [Finset.mem_sdiff]
        constructor
        · rcases htgt nn hnn with ⟨e, he, rfl⟩
          unfold idsFinset
          rw [List.mem_toFinset, List.mem_append]
          exact Or.inr (List.mem_map.mpr ⟨e, he, rfl⟩)
        · unfold visFinset
          rw [List.mem_toFinset]
          exact hdisj nn hnn
      have hcardt : (t.map GNode.id).toFinset.card = t.length := by
        rw [List.toFinset_card_of_nodup hnd, List.length_map]
      have hsdiff : (idsFinset edgeList) \ visFinset (visited ++ t)
          = ((idsFinset edgeList) \ visFinset visited) \ (t.map GNode.id).toFinset := by
        ext a
        unfold visFinset
        simp only [Finset.mem_sdiff, List.mem_toFinset, List.map_append, List.mem_append]
        tauto
      have hcard : ((idsFinset edgeList) \ visFinset (visited ++ t)).card
          = ((idsFinset edgeList) \ visFinset visited).card - t.length := by
        rw [hsdiff, Finset.card_sdiff htsub, hcardt]
      have htle : t.length ≤ ((idsFinset edgeList) \ visFinset visited).card := by
        rw [← hcardt]
        exact Finset.card_le_card htsub
      simp only [List.length_cons] at h
      rw [List.length_append, hcard]
      omega

/-- The ids collected by the de-duplicating set folds. -/
lemma addById_fold_ids (f : GEdge → GNode) :
    ∀ (es : List GEdge) (acc : List GNode) (i : String),
      (i ∈ (es.foldl (fun a e => addById a (f e)) acc).map GNode.id) ↔
        i ∈ acc.map GNode.id ∨ i ∈ es.map (fun e => (f e).id) := by
  intro es
  induction es with
  | nil => intro acc i; simp
  | cons e es ih =>
    intro acc i
    simp only [List.foldl_cons, ih, List.map_cons, List.mem_cons]
    have haddby : i ∈ (addById acc (f e)).map GNode.id ↔
        (i ∈ acc.map GNode.id ∨ i = (f e).id) := by
      unfold addById
      split
      · next hany =>
        constructor
        · exact Or.inl
        · rintro (h | rfl)
          · exact h
          · rcases List.any_eq_true.mp hany with ⟨m, hm, hmi⟩
            have hmi' : m.id = (f e).id := by simpa using hmi
            rw [show (f e).id = m.id from hmi'.symm]
            exact List.mem_map_of_mem _ hm
      · rw [List.map_append]
        simp
    rw [haddby]
    tauto

lemma sourcesList_ids (es : List GEdge) (i : String) :
    i ∈ (sourcesList es).map GNode.id ↔ i ∈ es.map (fun e => e.source.id) := by
  unfold sourcesList
  rw [addById_fold_ids (fun e => e.source)]
  simp

lemma targetsList_ids (es : List GEdge) (i : String) :
    i ∈ (targetsList es).map GNode.id ↔ i ∈ es.map (fun e => e.target.id) := by
  unfold targetsList
  rw [addById_fold_ids (fun e => e.target)]
  simp

/-- The root search succeeds exactly when some edge source never occurs as a
target. -/
lemma findRoot_isSome_iff (es : List GEdge) :
    (findRoot es).isSome ↔ ∃ e ∈ es, ∀ e2 ∈ es, e2.target.id ≠ e.source.id := by
  unfold findRoot
  rw [List.find?_isSome]
  constructor
  · rintro ⟨x, hx, hpx⟩
    have hany : (targetsList es).any (fun tgt => tgt.id == x.id) = false := by
      simpa using hpx
    have hnt : ∀ e2 ∈ es, e2.target.id ≠ x.id := by
      intro e2 he2 heq
      have hmem : e2.target.id ∈ (targetsList es).map GNode.id := by
        rw [targetsList_ids]
        exact List.mem_map.mpr ⟨e2, he2, rfl⟩
      rcases List.mem_map.mp hmem with ⟨tgt, htgt, htid⟩
      have := List.any_eq_false.mp hany tgt htgt
      rw [htid, heq] at this
      simp at this
    have hxid : x.id ∈ es.map (fun e => e.source.id) := by
      rw [← sourcesList_ids]
      exact List.mem_map_of_mem _ hx
    rcases List.mem_map.mp hxid with ⟨e, he, heid⟩
    exact ⟨e, he, fun e2 he2 => by rw [heid]; exact hnt e2 he2⟩
  · rintro ⟨e, he, hroot⟩
    have hmem : e.source.id ∈ (sourcesList es).map GNode.id := by
      rw [sourcesList_ids]
      exact List.mem_map.mpr ⟨e, he, rfl⟩
    rcases List.mem_map.mp hmem with ⟨x, hx, hxid⟩
    refine ⟨x, hx, ?_⟩
    rw [Bool.not_eq_true']
    apply List.any_eq_false.mpr
    intro tgt htgt
    have hmem2 : tgt.id ∈ es.map (fun e2 => e2.target.id) := by
      rw [← targetsList_ids]
      exact List.mem_map_of_mem _ htgt
    rcases List.mem_map.mp hmem2 with ⟨e2, he2, he2id⟩
    simp only [beq_iff_eq]
    rw [← he2id, hxid]
    exact hroot e2 he2

/-- The fuel chosen by `bfsSort` dominates the loop measure. -/
lemma bfs_fuel_ok (es : List GEdge) (root : GNode) :
    ([root] : List GNode).length
      + 2 * ((idsFinset es) \ visFinset [root]).card ≤ 2 * (2 * es.length) + 1 := by
  have h1 : ((idsFinset es) \ visFinset [root]).card ≤ (idsFinset es).card :=
    Finset.card_le_card (Finset.sdiff_subset)
  have h2 : (idsFinset es).card ≤ 2 * es.length := by
    unfold idsFinset
    calc ((es.map (fun e => e.source.id)) ++ (es.map (fun e => e.target.id))).toFinset.card
        ≤ ((es.map (fun e => e.source.id)) ++ (es.map (fun e => e.target.id))).length :=
          List.toFinset_card_le _
      _ = 2 * es.length := by
          rw [List.length_append, List.length_map, List.length_map]
          omega
  simp only [List.length_cons, List.length_nil]
  omega

/-- `bfsSort` succeeds exactly when the root search does. -/
lemma bfsSort_isSome_iff (es : List GEdge) :
    (bfsSort es).isSome ↔ (findRoot es).isSome := by
  unfold bfsSort
  rcases hf : findRoot es with _ | root
  · simp
  · simp only [Option.isSome_some, iff_true]
    exact bfsLoop_isSome es _ _ _ _ (bfs_fuel_ok es root)

/-- The BFS loop only appends to its accumulated result. -/
lemma bfsLoop_result_prefix (edgeList : List GEdge) :
    ∀ (fuel : Nat) (queue visited result r : List GNode),
      bfsLoop edgeList fuel queue visited result = some r →
      ∃ t, r = result ++ t := by
  intro fuel
  induction fuel with
  | zero =>
    intro queue visited result r h
    rcases queue with _ | ⟨c, q⟩
    · simp only [bfsLoop, Option.some.injEq] at h
      refine ⟨[], ?_⟩
      rw [← h]
      simp
    · simp [bfsLoop] at h
  | succ n ih =>
    intro queue visited result r h
    rcases queue with _ | ⟨c, q⟩
    · simp only [bfsLoop, Option.some.injEq] at h
      refine ⟨[], ?_⟩
      rw [← h]
      simp
    · have h' : bfsLoop edgeList n (bfsInner edgeList c (q, visited)).1
          (bfsInner edgeList c (q, visited)).2 (result ++ [c]) = some r := h
      rcases ih _ _ _ _ h' with ⟨t, ht⟩
      refine ⟨c :: t, ?_⟩
      rw [ht, List.append_assoc]
      rfl

/-- C4: with a non-empty allowed-dependency edge list, LayerTable
construction succeeds iff some source node never occurs as an edge target
(otherwise the `ConfigurationError` is thrown), and on success the layer
order is the BFS visitation order starting from the first such root. -/
theorem claim4_layer_table_root (es : List GEdge) (hne : es ≠ []) :
    ((buildContextLayers es).isSome ↔
      ∃ e ∈ es, ∀ e2 ∈ es, e2.target.id ≠ e.source.id) ∧
    (∀ root, findRoot es = some root →
      ∃ order, bfsSort es = some order ∧ order.head? = some root ∧
        buildContextLayers es = some (Option.none :: order.map (fun n => some n.simpleName))) := by
  have hlen : es.length ≠ 0 := by simpa using (List.length_pos.mpr hne).ne'
  constructor
  · rw [← findRoot_isSome_iff, ← bfsSort_isSome_iff]
    unfold buildContextLayers
    rw [if_pos hlen]
    rcases hb : bfsSort es with _ | order
    · simp
    · simp
  · intro root hroot
    have hsort : bfsSort es = bfsLoop es (2 * (2 * es.length) + 1) [root] [root] [] := by
      unfold bfsSort
      rw [hroot]
    have hiss : (bfsLoop es (2 * (2 * es.length) + 1) [root] [root] []).isSome :=
      bfsLoop_isSome es _ _ _ _ (bfs_fuel_ok es root)
    rcases Option.isSome_iff_exists.mp hiss with ⟨r, hr⟩
    refine ⟨r, by rw [hsort]; exact hr, ?_, ?_⟩
    · have hstep : bfsLoop es (2 * (2 * es.length) + 1) [root] [root] []
          = bfsLoop es (2 * (2 * es.length)) (bfsInner es root ([], [root])).1
              (bfsInner es root ([], [root])).2 [root] := rfl
      rw [hstep] at hr
      rcases bfsLoop_result_prefix es _ _ _ _ _ hr with ⟨t, ht⟩
      rw [ht]
      rfl
    · unfold buildContextLayers
      rw [if_pos hlen, hsort, hr]

/-- Witness for C4 at a one-edge dependency list with an obvious root. -/
theorem claim4_witness :
    (buildContextLayers
      [GEdge.mk (GNode.mk "a" "Presentation Layer") (GNode.mk "b" "Service Layer")]).isSome :=
  (claim4_layer_table_root _ (by decide)).1.mpr
    ⟨GEdge.mk (GNode.mk "a" "Presentation Layer") (GNode.mk "b" "Service Layer"),
     by decide, by decide⟩

end BubbleTea
